import Mathlib

/-!
Verification of the profiling core of a VS Code pprof extension.

The development shallowly embeds the TypeScript sources:

* `src/utils/pprofProtobuf.ts` — the hand-rolled protobuf wire reader
  (`readVarint`, `readTag`, `readLengthDelimited`, `skipField`, the message
  parsers and the top-level `parseProtobuf` loop), in namespace
  `PprofProtobuf`;
* `src/models/CallTree.ts` — `CallTreeBuilder` (node map, `addStack`,
  percentage finalization), in namespace `CallTree`;
* `src/parsers/pprofParser.ts` — the aggregation pass of
  `PprofParser.parseProtobuf` over decoded profile entities, plus
  `parseBuffer` / `parseTextFormat`, in namespace `PprofParser`;
* `src/utils/pathMapper.ts` — the candidate-scoring part of
  `findFileInWorkspace`, in namespace `PathMapper`.

Modelling conventions for JavaScript semantics:

* Byte buffers are `List Nat` (each element a byte value `< 256`).
* JS `number` results of 32-bit bitwise operators (`|`, `<<`, `&`, `>>>`)
  are modelled by keeping the 32-bit pattern as a `Nat < 2^32` and
  reinterpreting it as a signed `Int` (`Js.int32OfPat`).  A shift count is
  reduced mod 32, exactly as JS does.
* Other JS numbers that hold integral values (ids, line numbers, sample
  values, bigints converted with `Number(...)`) are modelled as exact `Int`
  or `ℚ`; IEEE-754 rounding above 2^53 is not modelled.
* `ℚ` division by zero yields `0` where JS would produce `Infinity`/`NaN`;
  no claim below depends on that degenerate case.
* While-loops are written as fuel recursion; the fuel is always sufficient
  in the regimes the theorems quantify over (each loop iteration advances
  the cursor by at least one byte there).
* `undefined` array reads are modelled with `Option`.
-/

set_option maxRecDepth 10000

deriving instance DecidableEq for Except

namespace Js

/-- Reinterpret a 32-bit pattern (a `Nat < 2^32`) as a JS 32-bit signed
integer result. -/
def int32OfPat (p : Nat) : Int :=
  if p < 2 ^ 31 then (p : Int) else (p : Int) - 2 ^ 32

/-- `ToUint32` of a JS integral number, as used by the `>>>` operator. -/
def toUint32 (v : Int) : Nat := (v % (2 ^ 32 : Int)).toNat

/-- `buffer[i]` — `undefined` (here `none`) when out of bounds. -/
def bufGet (buf : List Nat) (i : Int) : Option Nat :=
  if 0 ≤ i then buf.get? i.toNat else none

/-- Node `Buffer.slice(start, end)`: negative indices count from the end,
both are clamped to `[0, length]`, and an empty buffer results when
`start ≥ end`. -/
def jsSlice (buf : List Nat) (s e : Int) : List Nat :=
  let len : Int := buf.length
  let s2 : Int := if s < 0 then max (len + s) 0 else min s len
  let e2 : Int := if e < 0 then max (len + e) 0 else min e len
  if s2 < e2 then ((buf.drop s2.toNat).take (e2 - s2).toNat) else []

/-- Decimal digit characters of a natural number (most significant first),
matching JS integer-to-string conversion; structural recursion on a fuel
bound (`n + 1` is always enough, the argument shrinks by a factor of 10
per step). -/
def natCharsAux : Nat → Nat → List Char
  | 0, _ => []
  | fuel + 1, n =>
    if n < 10 then [Char.ofNat (48 + n)]
    else natCharsAux fuel (n / 10) ++ [Char.ofNat (48 + n % 10)]

/-- Decimal digit characters of a natural number. -/
def natChars (n : Nat) : List Char := natCharsAux (n + 1) n

/-- JS `String(n)` for an integral number. -/
def intToString (i : Int) : String :=
  if i < 0 then "-" ++ String.mk (natChars i.natAbs) else String.mk (natChars i.natAbs)

/-- Is `sub` a prefix of `l`? (helper for JS `String.prototype.includes`). -/
def listStartsWith : List Char → List Char → Bool
  | [], _ => true
  | _ :: _, [] => false
  | a :: as, b :: bs => a == b && listStartsWith as bs

/-- Does `l` contain `sub` as a contiguous sublist? -/
def listHasSub (sub : List Char) : List Char → Bool
  | [] => listStartsWith sub []
  | c :: rest => listStartsWith sub (c :: rest) || listHasSub sub rest

/-- JS `s.includes(sub)`. -/
def strHasSub (s sub : String) : Bool := listHasSub sub.data s.data

/-- ASCII lower-casing of a character, as JS `toLowerCase` acts on ASCII
(non-ASCII case mapping is not needed by any claim). -/
def lowerChar (c : Char) : Char :=
  if 65 ≤ c.toNat ∧ c.toNat ≤ 90 then Char.ofNat (c.toNat + 32) else c

/-- JS `s.toLowerCase()` (ASCII fragment). -/
def toLowerStr (s : String) : String := String.mk (s.data.map lowerChar)

/-- JS `String.prototype.split` with a one-character separator, over
character lists (splitting never drops empty pieces). -/
def splitOnChar (c : Char) : List Char → List (List Char)
  | [] => [[]]
  | x :: xs =>
    match splitOnChar c xs with
    | [] => [[]]
    | h :: t => if x == c then [] :: h :: t else (x :: h) :: t

/-- JS `s.split(sep)` for a one-character separator string. -/
def jsSplit (c : Char) (s : String) : List String :=
  (splitOnChar c s.data).map String.mk

/-- Insert into a sorted list, placing `x` before the first element `y` with
`le x y` (so earlier elements stay before later ties: stability). -/
def jsInsert {α : Type} (le : α → α → Bool) (x : α) : List α → List α
  | [] => [x]
  | y :: ys => if le x y then x :: y :: ys else y :: jsInsert le x ys

/-- V8's stable `Array.prototype.sort` under a total boolean preorder,
modelled as stable insertion sort. -/
def jsSortBy {α : Type} (le : α → α → Bool) : List α → List α
  | [] => []
  | x :: xs => jsInsert le x (jsSortBy le xs)

/-- The Unicode replacement character emitted for invalid UTF-8. -/
def replChar : Char := Char.ofNat 0xFFFD

/-- Is a byte a UTF-8 continuation byte? -/
def isCont (b : Nat) : Bool := 128 ≤ b && b < 192

/-- Node `buffer.toString(\x27utf-8\x27)`: UTF-8 decoding with replacement
characters for invalid sequences. -/
def utf8DecodeAux : Nat → List Nat → List Char
  | 0, _ => []
  | _, [] => []
  | fuel + 1, b :: rest =>
    if b < 0x80 then Char.ofNat b :: utf8DecodeAux fuel rest
    else if b < 0xc0 then replChar :: utf8DecodeAux fuel rest
    else if b < 0xe0 then
      match rest with
      | b2 :: rest2 =>
        if isCont b2 then
          let cp := (b - 0xc0) * 64 + (b2 - 0x80)
          (if cp < 0x80 then replChar else Char.ofNat cp) :: utf8DecodeAux fuel rest2
        else replChar :: utf8DecodeAux fuel rest
      | [] => [replChar]
    else if b < 0xf0 then
      match rest with
      | b2 :: b3 :: rest3 =>
        if isCont b2 && isCont b3 then
          let cp := (b - 0xe0) * 4096 + (b2 - 0x80) * 64 + (b3 - 0x80)
          (if cp < 0x800 ∨ (0xd800 ≤ cp ∧ cp ≤ 0xdfff) then replChar else Char.ofNat cp)
            :: utf8DecodeAux fuel rest3
        else replChar :: utf8DecodeAux fuel rest
      | _ => [replChar]
    else if b < 0xf8 then
      match rest with
      | b2 :: b3 :: b4 :: rest4 =>
        if isCont b2 && isCont b3 && isCont b4 then
          let cp := (b - 0xf0) * 262144 + (b2 - 0x80) * 4096 + (b3 - 0x80) * 64 + (b4 - 0x80)
          (if cp < 0x10000 ∨ 0x10FFFF < cp then replChar else Char.ofNat cp)
            :: utf8DecodeAux fuel rest4
        else replChar :: utf8DecodeAux fuel rest
      | _ => [replChar]
    else replChar :: utf8DecodeAux fuel rest

/-- UTF-8 decode of a byte buffer into a string. -/
def utf8Decode (buf : List Nat) : String :=
  String.mk (utf8DecodeAux (buf.length + 1) buf)

end Js

namespace PprofProtobuf

/-! ### Wire-format reader, from `src/utils/pprofProtobuf.ts` -/

/-- `readVarint`'s while loop.  The accumulator `value` carries the 32-bit
pattern produced by the JS expression `value |= (byte & 0x7f) << shift`
(JS bitwise operators truncate to 32 bits and reduce shift counts mod 32).
Returns the final pattern, offset and iteration count.  A `none` byte read
models `buffer[offset]` being `undefined` (negative offset): the JS code
then or-s in `0` and exits the loop because `(undefined & 0x80) === 0`. -/
def readVarintAux (buf : List Nat) : Nat → Nat → Nat → Int → Nat → Nat × Int × Nat
  | 0, value, _, off, iters => (value, off, iters)
  | fuel + 1, value, shift, off, iters =>
    if off < (buf.length : Int) ∧ iters < 10 then
      match Js.bufGet buf off with
      | some b =>
        let value := (value ||| ((b &&& 0x7f) <<< (shift % 32)) % 2 ^ 32) % 2 ^ 32
        if b &&& 0x80 == 0 then (value, off + 1, iters)
        else readVarintAux buf fuel value (shift + 7) (off + 1) (iters + 1)
      | none => (value, off + 1, iters)
    else (value, off, iters)

/-- `readVarint(buffer, offset)`: at most 10 bytes are consumed; reaching the
iteration limit raises; a buffer that ends mid-varint silently yields the
partial accumulated value.  The value returned to JS is the 32-bit signed
reinterpretation of the accumulator pattern. -/
def readVarint (buf : List Nat) (off : Int) : Except String (Int × Int) :=
  let r := readVarintAux buf 11 0 0 off 0
  if 10 ≤ r.2.2 then
    .error ("Invalid varint at offset " ++ Js.intToString (r.2.1 - (r.2.2 : Int)) ++
      ": too many bytes")
  else .ok (Js.int32OfPat r.1, r.2.1)

/-- `readTag`: `fieldNumber = value >>> 3`, `wireType = value & 0x7`. -/
def readTag (buf : List Nat) (off : Int) : Except String (Nat × Nat × Int) := do
  let (v, newOff) ← readVarint buf off
  .ok (Js.toUint32 v / 8, Js.toUint32 v % 8, newOff)

/-- `readLengthDelimited`: reads a length varint, then `buffer.slice` — which
silently clamps to the end of the buffer when the declared length overruns
it. -/
def readLengthDelimited (buf : List Nat) (off : Int) : Except String (List Nat × Int) := do
  let (len, newOff) ← readVarint buf off
  .ok (Js.jsSlice buf newOff (newOff + len), newOff + len)

/-- `skipField` by wire type (3/4 are the deprecated group markers the code
merely warns about and does not advance over). -/
def skipField (buf : List Nat) (off : Int) (wireType : Nat) : Except String Int :=
  match wireType with
  | 0 => do let r ← readVarint buf off; .ok r.2
  | 1 => .ok (off + 8)
  | 2 => do let r ← readLengthDelimited buf off; .ok r.2
  | 3 => .ok off
  | 4 => .ok off
  | 5 => .ok (off + 4)
  | _ =>
    match readVarint buf off with
    | .ok r => .ok r.2
    | .error _ => .ok (off + 1)

/-- pprof `ValueType` submessage (field names from the TS interface). -/
structure SampleType where
  type : Int
  unit : Int
  deriving DecidableEq, Repr

/-- pprof `Sample` (the TS interface also declares `label`, which
`parseSample` never populates, so it is omitted here). -/
structure Sample where
  locationId : List Int
  value : List Int
  deriving DecidableEq, Repr

/-- pprof `Mapping`. -/
structure Mapping where
  id : Int
  memoryStart : Int
  memoryLimit : Int
  fileOffset : Int
  filename : Int
  buildId : Int
  deriving DecidableEq, Repr

/-- pprof `Line`. -/
structure Line where
  functionId : Int
  line : Int
  deriving DecidableEq, Repr

/-- pprof `Location`. -/
structure Location where
  id : Int
  mappingId : Int
  address : Int
  line : List Line
  deriving DecidableEq, Repr

/-- pprof `Function` (named `Func` because `Function` is a Lean namespace). -/
structure Func where
  id : Int
  name : Int
  systemName : Int
  filename : Int
  startLine : Int
  deriving DecidableEq, Repr

/-- The decoded profile container. -/
structure PprofProfile where
  sampleType : List SampleType
  sample : List Sample
  mapping : List Mapping
  location : List Location
  func : List Func
  stringTable : List String
  timeNanos : Int
  durationNanos : Int
  period : Int
  deriving DecidableEq, Repr

/-- The initial profile value of `parseProtobuf`. -/
def emptyProfile : PprofProfile :=
  ⟨[], [], [], [], [], [], 0, 0, 0⟩

/-- `parseSampleType`'s field loop (every field is read as a varint). -/
def parseSampleTypeAux (buf : List Nat) : Nat → Int → SampleType → Except String SampleType
  | 0, _, acc => .ok acc
  | fuel + 1, off, acc =>
    if off < (buf.length : Int) then do
      let (fieldNumber, _, tagOff) ← readTag buf off
      let (v, newOff) ← readVarint buf tagOff
      let acc := if fieldNumber == 1 then { acc with type := v }
        else if fieldNumber == 2 then { acc with unit := v } else acc
      parseSampleTypeAux buf fuel newOff acc
    else .ok acc

/-- `parseSampleType(buffer)`. -/
def parseSampleType (buf : List Nat) : Except String SampleType :=
  parseSampleTypeAux buf (buf.length + 1) 0 ⟨0, 0⟩

/-- The loop decoding a packed repeated varint payload. -/
def readPackedVarints (data : List Nat) : Nat → Int → List Int → Except String (List Int)
  | 0, _, acc => .ok acc
  | fuel + 1, off, acc =>
    if off < (data.length : Int) then do
      let (v, newOff) ← readVarint data off
      readPackedVarints data fuel newOff (acc ++ [v])
    else .ok acc

/-- `parseSample`'s field loop. -/
def parseSampleAux (buf : List Nat) : Nat → Int → Sample → Except String Sample
  | 0, _, acc => .ok acc
  | fuel + 1, off, acc =>
    if off < (buf.length : Int) then do
      let (fieldNumber, wireType, tagOff) ← readTag buf off
      if fieldNumber == 1 then
        if wireType == 2 then do
          let (packed, newOff) ← readLengthDelimited buf tagOff
          let vs ← readPackedVarints packed (packed.length + 1) 0 []
          parseSampleAux buf fuel newOff { acc with locationId := acc.locationId ++ vs }
        else do
          let (v, newOff) ← readVarint buf tagOff
          parseSampleAux buf fuel newOff { acc with locationId := acc.locationId ++ [v] }
      else if fieldNumber == 2 then
        if wireType == 2 then do
          let (packed, newOff) ← readLengthDelimited buf tagOff
          let vs ← readPackedVarints packed (packed.length + 1) 0 []
          parseSampleAux buf fuel newOff { acc with value := acc.value ++ vs }
        else do
          let (v, newOff) ← readVarint buf tagOff
          parseSampleAux buf fuel newOff { acc with value := acc.value ++ [v] }
      else do
        let newOff ← skipField buf tagOff wireType
        parseSampleAux buf fuel newOff acc
    else .ok acc

/-- `parseSample(buffer)`. -/
def parseSample (buf : List Nat) : Except String Sample :=
  parseSampleAux buf (buf.length + 1) 0 ⟨[], []⟩

/-- `parseMapping`'s field loop (every field read as a varint). -/
def parseMappingAux (buf : List Nat) : Nat → Int → Mapping → Except String Mapping
  | 0, _, acc => .ok acc
  | fuel + 1, off, acc =>
    if off < (buf.length : Int) then do
      let (fieldNumber, _, tagOff) ← readTag buf off
      let (v, newOff) ← readVarint buf tagOff
      let acc :=
        if fieldNumber == 1 then { acc with id := v }
        else if fieldNumber == 2 then { acc with memoryStart := v }
        else if fieldNumber == 3 then { acc with memoryLimit := v }
        else if fieldNumber == 4 then { acc with fileOffset := v }
        else if fieldNumber == 5 then { acc with filename := v }
        else if fieldNumber == 6 then { acc with buildId := v }
        else acc
      parseMappingAux buf fuel newOff acc
    else .ok acc

/-- `parseMapping(buffer)`. -/
def parseMapping (buf : List Nat) : Except String Mapping :=
  parseMappingAux buf (buf.length + 1) 0 ⟨0, 0, 0, 0, 0, 0⟩

/-- `parseLine`'s field loop. -/
def parseLineAux (buf : List Nat) : Nat → Int → Line → Except String Line
  | 0, _, acc => .ok acc
  | fuel + 1, off, acc =>
    if off < (buf.length : Int) then do
      let (fieldNumber, _, tagOff) ← readTag buf off
      let (v, newOff) ← readVarint buf tagOff
      let acc := if fieldNumber == 1 then { acc with functionId := v }
        else if fieldNumber == 2 then { acc with line := v } else acc
      parseLineAux buf fuel newOff acc
    else .ok acc

/-- `parseLine(buffer)`. -/
def parseLine (buf : List Nat) : Except String Line :=
  parseLineAux buf (buf.length + 1) 0 ⟨0, 0⟩

/-- `parseLocation`'s field loop. -/
def parseLocationAux (buf : List Nat) : Nat → Int → Location → Except String Location
  | 0, _, acc => .ok acc
  | fuel + 1, off, acc =>
    if off < (buf.length : Int) then do
      let (fieldNumber, wireType, tagOff) ← readTag buf off
      if fieldNumber == 1 then do
        let (v, newOff) ← readVarint buf tagOff
        parseLocationAux buf fuel newOff { acc with id := v }
      else if fieldNumber == 2 then do
        let (v, newOff) ← readVarint buf tagOff
        parseLocationAux buf fuel newOff { acc with mappingId := v }
      else if fieldNumber == 3 then do
        let (v, newOff) ← readVarint buf tagOff
        parseLocationAux buf fuel newOff { acc with address := v }
      else if fieldNumber == 4 then do
        let (v, newOff) ← readLengthDelimited buf tagOff
        let ln ← parseLine v
        parseLocationAux buf fuel newOff { acc with line := acc.line ++ [ln] }
      else do
        let newOff ← skipField buf tagOff wireType
        parseLocationAux buf fuel newOff acc
    else .ok acc

/-- `parseLocation(buffer)`. -/
def parseLocation (buf : List Nat) : Except String Location :=
  parseLocationAux buf (buf.length + 1) 0 ⟨0, 0, 0, []⟩

/-- `parseFunction`'s field loop. -/
def parseFunctionAux (buf : List Nat) : Nat → Int → Func → Except String Func
  | 0, _, acc => .ok acc
  | fuel + 1, off, acc =>
    if off < (buf.length : Int) then do
      let (fieldNumber, _, tagOff) ← readTag buf off
      let (v, newOff) ← readVarint buf tagOff
      let acc :=
        if fieldNumber == 1 then { acc with id := v }
        else if fieldNumber == 2 then { acc with name := v }
        else if fieldNumber == 3 then { acc with systemName := v }
        else if fieldNumber == 4 then { acc with filename := v }
        else if fieldNumber == 5 then { acc with startLine := v }
        else acc
      parseFunctionAux buf fuel newOff acc
    else .ok acc

/-- `parseFunction(buffer)`. -/
def parseFunction (buf : List Nat) : Except String Func :=
  parseFunctionAux buf (buf.length + 1) 0 ⟨0, 0, 0, 0, 0⟩

/-- One arm of `parseProtobuf`'s field switch; errors thrown inside are
handled by the caller (the `try`/`catch` in the loop). Field 11
(`period_type`) is read and discarded, and unknown fields are skipped by
wire type, both as in the source. -/
def runField (buf : List Nat) (profile : PprofProfile) (fieldNumber wireType : Nat)
    (off : Int) : Except String (PprofProfile × Int) :=
  match fieldNumber with
  | 1 => do
    let (v, newOff) ← readLengthDelimited buf off
    let st ← parseSampleType v
    .ok ({ profile with sampleType := profile.sampleType ++ [st] }, newOff)
  | 2 => do
    let (v, newOff) ← readLengthDelimited buf off
    let s ← parseSample v
    .ok ({ profile with sample := profile.sample ++ [s] }, newOff)
  | 3 => do
    let (v, newOff) ← readLengthDelimited buf off
    let m ← parseMapping v
    .ok ({ profile with mapping := profile.mapping ++ [m] }, newOff)
  | 4 => do
    let (v, newOff) ← readLengthDelimited buf off
    let l ← parseLocation v
    .ok ({ profile with location := profile.location ++ [l] }, newOff)
  | 5 => do
    let (v, newOff) ← readLengthDelimited buf off
    let f ← parseFunction v
    .ok ({ profile with func := profile.func ++ [f] }, newOff)
  | 6 => do
    let (v, newOff) ← readLengthDelimited buf off
    .ok ({ profile with stringTable := profile.stringTable ++ [Js.utf8Decode v] }, newOff)
  | 9 => do
    let (v, newOff) ← readVarint buf off
    .ok ({ profile with timeNanos := v }, newOff)
  | 10 => do
    let (v, newOff) ← readVarint buf off
    .ok ({ profile with durationNanos := v }, newOff)
  | 11 => do
    let (_, newOff) ← readLengthDelimited buf off
    .ok (profile, newOff)
  | 12 => do
    let (v, newOff) ← readVarint buf off
    .ok ({ profile with period := v }, newOff)
  | _ => do
    let newOff ← skipField buf off wireType
    .ok (profile, newOff)

/-- The top-level `while` of `parseProtobuf`.  A tag-read error breaks out of
the loop (returning the profile built so far); a field-parse error falls back
to `skipField`, and if that also fails the loop breaks. -/
def parseProtobufAux (buf : List Nat) : Nat → PprofProfile → Int → PprofProfile
  | 0, profile, _ => profile
  | fuel + 1, profile, off =>
    if off < (buf.length : Int) then
      match readTag buf off with
      | .error _ => profile
      | .ok (fieldNumber, wireType, newOff) =>
        if 5 < wireType then parseProtobufAux buf fuel profile (newOff + 1)
        else
          match runField buf profile fieldNumber wireType newOff with
          | .ok (profile2, off2) => parseProtobufAux buf fuel profile2 off2
          | .error _ =>
            match skipField buf newOff wireType with
            | .ok off2 => parseProtobufAux buf fuel profile off2
            | .error _ => profile
    else profile

/-- `parseProtobuf(buffer)`: never throws — every fatal condition is caught
and results in the partially-populated profile being returned as a normal
value. -/
def parseProtobuf (buf : List Nat) : PprofProfile :=
  parseProtobufAux buf (buf.length + 1) emptyProfile 0

end PprofProtobuf

namespace CallTree

/-! ### Call-tree builder, from `src/models/CallTree.ts` -/

/-- A node of the call tree.  `children` and `parent` store node-map keys:
in the source they are object references into `nodeMap`, whose entries are
exactly the nodes, so a key faithfully stands for the referenced node. -/
structure CallTreeNode where
  functionName : String
  fileName : String
  line : Int
  selfTime : Int
  totalTime : Int
  selfPercent : ℚ
  totalPercent : ℚ
  samples : Int
  invocations : Int
  children : List String
  parent : Option String
  id : String
  deriving DecidableEq, Repr

/-- A stack frame handed to `addStack`. -/
structure Frame where
  functionName : String
  fileName : String
  line : Int
  deriving DecidableEq, Repr

/-- The builder's mutable state: the global node map (JS `Map` preserves
insertion order) and the root list. -/
structure BuilderState where
  nodeMap : List (String × CallTreeNode)
  roots : List String
  deriving DecidableEq, Repr

/-- A fresh `CallTreeBuilder`. -/
def emptyBuilder : BuilderState := ⟨[], []⟩

/-- `createNodeId`: the template literal `fileName:line:functionName`. -/
def createNodeId (functionName fileName : String) (line : Int) : String :=
  fileName ++ ":" ++ Js.intToString line ++ ":" ++ functionName

/-- First-match lookup in the node map. -/
def mapGet (m : List (String × CallTreeNode)) (k : String) : Option CallTreeNode :=
  match m with
  | [] => none
  | (k2, v) :: rest => if k2 = k then some v else mapGet rest k

/-- In-place mutation of the node stored under a key (a no-op when the key is
absent, which never happens at the call sites below). -/
def mapModify (m : List (String × CallTreeNode)) (k : String)
    (f : CallTreeNode → CallTreeNode) : List (String × CallTreeNode) :=
  match m with
  | [] => []
  | (k2, v) :: rest => if k2 = k then (k2, f v) :: rest else (k2, v) :: mapModify rest k f

/-- The node freshly inserted by `getOrCreateNode`. -/
def newNode (functionName fileName : String) (line : Int) (id : String) : CallTreeNode :=
  ⟨functionName, fileName, line, 0, 0, 0, 0, 0, 0, [], none, id⟩

/-- `getOrCreateNode`: global lookup by the id string; inserts a fresh node
at the end of the map when absent.  Returns the state and the node's key. -/
def getOrCreateNode (st : BuilderState) (functionName fileName : String) (line : Int) :
    BuilderState × String :=
  let id := createNodeId functionName fileName line
  match mapGet st.nodeMap id with
  | some _ => (st, id)
  | none =>
    ({ st with nodeMap := st.nodeMap ++ [(id, newNode functionName fileName line id)] }, id)

/-- Mutate one node of the builder state. -/
def updateNode (st : BuilderState) (id : String) (f : CallTreeNode → CallTreeNode) :
    BuilderState :=
  { st with nodeMap := mapModify st.nodeMap id f }

/-- The parent/child linking part of `addStack`'s loop body: when there is a
current parent, append the node to its children when not already present
(also reassigning the node's parent pointer) and bump the node's invocation
count; without a parent, register the node as a root when new. -/
def linkParent (nid : String) (currentParent : Option String) (st : BuilderState) :
    BuilderState :=
  match currentParent with
  | some pid =>
    let st :=
      match mapGet st.nodeMap pid with
      | some p =>
        if nid ∈ p.children then st
        else
          let st := updateNode st pid fun q => { q with children := q.children ++ [nid] }
          updateNode st nid fun n => { n with parent := some pid }
      | none => st
    updateNode st nid fun n => { n with invocations := n.invocations + 1 }
  | none => if nid ∈ st.roots then st else { st with roots := st.roots ++ [nid] }

/-- One iteration of `addStack`'s for-loop: get or create the frame's node,
accumulate total time and samples, accumulate self time on the innermost
frame (`isLast`), then link to the current parent (or register a root).
Returns the new state and the node's key. -/
def addStackStep (value : Int) (currentParent : Option String) (frame : Frame)
    (isLast : Bool) (st : BuilderState) : BuilderState × String :=
  let r := getOrCreateNode st frame.functionName frame.fileName frame.line
  let nid := r.2
  let st := updateNode r.1 nid fun n =>
    { n with totalTime := n.totalTime + value, samples := n.samples + 1 }
  let st := if isLast then
      updateNode st nid fun n => { n with selfTime := n.selfTime + value }
    else st
  (linkParent nid currentParent st, nid)

/-- The body of `addStack`'s for-loop over the reversed stack.
`currentParent` carries the key of the previous frame's node. -/
def addStackFrames (value : Int) : BuilderState → Option String → List Frame → BuilderState
  | st, _, [] => st
  | st, currentParent, frame :: rest =>
    let r := addStackStep value currentParent frame rest.isEmpty st
    addStackFrames value r.1 (some r.2) rest

/-- `addStack(stack, value, totalDuration)` (the `totalDuration` parameter is
unused in the source as well). -/
def addStack (st : BuilderState) (stack : List Frame) (value totalDuration : Int) :
    BuilderState :=
  if stack.isEmpty then st
  else addStackFrames value st none stack.reverse

/-- `calculatePercentages(totalDuration)` (in ℚ, division by zero gives 0
where JS gives Infinity/NaN; no claim depends on a zero duration). -/
def calculatePercentages (st : BuilderState) (totalDuration : Int) : BuilderState :=
  { st with nodeMap := st.nodeMap.map fun kv =>
      (kv.1, { kv.2 with
        selfPercent := (kv.2.selfTime : ℚ) / (totalDuration : ℚ) * 100,
        totalPercent := (kv.2.totalTime : ℚ) / (totalDuration : ℚ) * 100 }) }

/-- The `totalTime` of the node a key refers to (0 for a dangling key, which
does not occur). -/
def keyTotalTime (m : List (String × CallTreeNode)) (id : String) : Int :=
  match mapGet m id with
  | some n => n.totalTime
  | none => 0

/-- `sortChildren()`: each node's children sorted by total time descending
(V8's stable sort with the comparator `b.totalTime - a.totalTime`). -/
def sortChildren (st : BuilderState) : BuilderState :=
  { st with nodeMap := st.nodeMap.map fun kv =>
      (kv.1, { kv.2 with children := Js.jsSortBy (fun a b =>
        decide (keyTotalTime st.nodeMap b ≤ keyTotalTime st.nodeMap a)) kv.2.children }) }

/-- `getRoots()`: the root keys sorted by total time descending. -/
def getRoots (st : BuilderState) : List String :=
  Js.jsSortBy (fun a b =>
    decide (keyTotalTime st.nodeMap b ≤ keyTotalTime st.nodeMap a)) st.roots

end CallTree

namespace PprofParser

open PprofProtobuf

/-! ### Aggregation pass of `PprofParser.parseProtobuf`, from
`src/parsers/pprofParser.ts`.

The source decodes the buffer with `@bufbuild/protobuf` into entities of
exactly the shapes in `PprofProtobuf` (bigint fields are converted with
`Number(...)`, modelled as exact `Int`), then aggregates them.  The
aggregation below starts from the decoded `PprofProfile`. -/

/-- First-match lookup in a JS `Map` keyed by numbers. -/
def assocGet {α : Type} (m : List (Int × α)) (k : Int) : Option α :=
  match m with
  | [] => none
  | (k2, v) :: rest => if k2 = k then some v else assocGet rest k

/-- JS `Map.set` keyed by numbers: overwrite in place, else append. -/
def assocSet {α : Type} (m : List (Int × α)) (k : Int) (v : α) : List (Int × α) :=
  match m with
  | [] => [(k, v)]
  | (k2, v2) :: rest => if k2 = k then (k2, v) :: rest else (k2, v2) :: assocSet rest k v

/-- First-match lookup in a JS `Map` keyed by strings. -/
def sGet {α : Type} (m : List (String × α)) (k : String) : Option α :=
  match m with
  | [] => none
  | (k2, v) :: rest => if k2 = k then some v else sGet rest k

/-- In-place mutation of a string-keyed entry (no-op when absent). -/
def sModify {α : Type} (m : List (String × α)) (k : String) (f : α → α) :
    List (String × α) :=
  match m with
  | [] => []
  | (k2, v) :: rest => if k2 = k then (k2, f v) :: rest else (k2, v) :: sModify rest k f

/-- JS `stringTable[i] || dflt`: out-of-range indices give `undefined` and
the empty string is falsy, so both fall back to the default. -/
def jsIndexStr (tbl : List String) (i : Int) (dflt : String) : String :=
  if 0 ≤ i then
    match tbl.get? i.toNat with
    | some s => if s = "" then dflt else s
    | none => dflt
  else dflt

/-- The `Location` record of `src/models/ProfileData.ts` (named
`LocationInfo` to avoid clashing with the wire-format `Location`). -/
structure LocationInfo where
  line : Int
  functionName : String
  fileName : String
  deriving DecidableEq, Repr

/-- Line-level metrics record. -/
structure LocationMetrics where
  location : LocationInfo
  selfTime : ℚ
  totalTime : ℚ
  selfPercent : ℚ
  totalPercent : ℚ
  samples : Int
  deriving DecidableEq, Repr

/-- Function-level metrics record. -/
structure FunctionMetrics where
  name : String
  fileName : String
  startLine : Int
  selfTime : ℚ
  totalTime : ℚ
  selfPercent : ℚ
  totalPercent : ℚ
  samples : Int
  deriving DecidableEq, Repr

/-- Per-file metrics record. -/
structure FileMetrics where
  fileName : String
  totalTime : ℚ
  totalPercent : ℚ
  lineMetrics : List (Int × LocationMetrics)
  topFunctions : List FunctionMetrics
  deriving DecidableEq, Repr

/-- The key of `locationMetricsMap`: the template literal
`fileName:sampleLine`. -/
def metricsKey (fileName : String) (line : Int) : String :=
  fileName ++ ":" ++ Js.intToString line

/-- State threaded through the loop over one sample's `locationId` list. -/
structure SampleLoopState where
  processedLocations : List Int
  locationMetricsMap : List (String × LocationMetrics)
  stack : List CallTree.Frame
  deriving DecidableEq, Repr

/-- State threaded through the loop over all samples. -/
structure AggState where
  locationMetricsMap : List (String × LocationMetrics)
  totalSamples : Int
  builder : CallTree.BuilderState
  deriving DecidableEq, Repr

/-- The body of the loop over one location's `line` entries: resolve the
function, push the call-tree frame with the *declaration* line
(`func.startLine`), and accumulate line metrics keyed by the *sample* line
(`line.line`). -/
def processLineEntry (stringTable : List String) (functionMap : List (Int × Func))
    (sampleValue : Int) (st : SampleLoopState) (le : Line) : SampleLoopState :=
  match assocGet functionMap le.functionId with
  | none => st
  | some func =>
    let fileName := jsIndexStr stringTable func.filename "unknown"
    let functionName := jsIndexStr stringTable func.name "unknown"
    let sampleLine := le.line
    let functionStartLine := func.startLine
    let stack := st.stack ++ [⟨functionName, fileName, functionStartLine⟩]
    let key := metricsKey fileName sampleLine
    let lm := st.locationMetricsMap
    let lm :=
      if (sGet lm key).isSome then lm
      else lm ++ [(key, ⟨⟨sampleLine, functionName, fileName⟩, 0, 0, 0, 0, 0⟩)]
    let lm := sModify lm key (fun m =>
      { m with samples := m.samples + sampleValue,
               totalTime := m.totalTime + (sampleValue : ℚ) })
    ⟨st.processedLocations, lm, stack⟩

/-- The body of the loop over a sample's `locationId` list: already-processed
location ids are skipped (the recursion dedup), unresolved or line-less
locations are skipped. -/
def processLocationId (stringTable : List String) (locationMap : List (Int × Location))
    (functionMap : List (Int × Func)) (sampleValue : Int) (st : SampleLoopState)
    (locationId : Int) : SampleLoopState :=
  if locationId ∈ st.processedLocations then st
  else
    let st := { st with processedLocations := st.processedLocations ++ [locationId] }
    match assocGet locationMap locationId with
    | none => st
    | some location =>
      if location.line.isEmpty then st
      else location.line.foldl (processLineEntry stringTable functionMap sampleValue) st

/-- Processing of one sample: accumulate `totalSamples`, build the stack and
line metrics, and add the stack (when non-empty) to the call tree. -/
def processSample (stringTable : List String) (locationMap : List (Int × Location))
    (functionMap : List (Int × Func)) (st : AggState) (s : Sample) : AggState :=
  let sampleValue : Int := s.value.headD 0
  let totalSamples := st.totalSamples + sampleValue
  let ls := s.locationId.foldl
    (processLocationId stringTable locationMap functionMap sampleValue)
    ⟨[], st.locationMetricsMap, []⟩
  let builder :=
    if ls.stack.isEmpty then st.builder
    else CallTree.addStack st.builder ls.stack sampleValue totalSamples
  ⟨ls.locationMetricsMap, totalSamples, builder⟩

/-- `sampleTypeName`: `SampleType[0]`'s type string, defaulting to
`samples`. -/
def sampleTypeName (data : PprofProfile) : String :=
  match data.sampleType with
  | [] => "samples"
  | st :: _ => jsIndexStr data.stringTable st.type "samples"

/-- `sampleUnit`: `SampleType[0]`'s unit string, defaulting to `count`. -/
def sampleUnit (data : PprofProfile) : String :=
  match data.sampleType with
  | [] => "count"
  | st :: _ => jsIndexStr data.stringTable st.unit "count"

/-- `sampleUnit.toLowerCase().includes(\x27nanosecond\x27)`. -/
def unitIsNanoseconds (data : PprofProfile) : Bool :=
  Js.strHasSub (Js.toLowerStr (sampleUnit data)) "nanosecond"

/-- `Number(pprofData.period) || 10000000`. -/
def periodOrDefault (data : PprofProfile) : Int :=
  if data.period = 0 then 10000000 else data.period

/-- JS `Math.round` on an (exact) numeric value. -/
def jsRound (q : ℚ) : Int := ⌊q + 1 / 2⌋

/-- The output model.  `callTree` holds the sorted root keys and
`nodeMap` the final node store (the source's `ProfileData.callTree` holds
the root node references into the same store); `locationMetricsMap` is the
finalized line-metrics map the file grouping and top-function list are
derived from. -/
structure AggResult where
  totalSamples : Int
  durationNs : Int
  sampleRate : Int
  sampleType : String
  fileMetrics : List (String × FileMetrics)
  topFunctions : List FunctionMetrics
  callTree : List String
  nodeMap : List (String × CallTree.CallTreeNode)
  locationMetricsMap : List (String × LocationMetrics)
  deriving DecidableEq, Repr

/-- The function lookup map built at the top of `parseProtobuf`. -/
def functionMapOf (data : PprofProfile) : List (Int × Func) :=
  data.func.foldl (fun m f => assocSet m f.id f) []

/-- The location lookup map built at the top of `parseProtobuf`. -/
def locationMapOf (data : PprofProfile) : List (Int × Location) :=
  data.location.foldl (fun m l => assocSet m l.id l) []

/-- The aggregation pass of `PprofParser.parseProtobuf`, starting from the
decoded profile entities. -/
def parseProtobuf (data : PprofProfile) : AggResult :=
  let functionMap := functionMapOf data
  let locationMap := locationMapOf data
  let st := data.sample.foldl (processSample data.stringTable locationMap functionMap)
    ⟨[], 0, CallTree.emptyBuilder⟩
  let totalSamples := st.totalSamples
  let isNs := unitIsNanoseconds data
  let durationNs : Int :=
    if isNs then totalSamples
    else if 0 < data.durationNanos then data.durationNanos
    else totalSamples * periodOrDefault data
  let actualTotalSamples : Int := if isNs then (data.sample.length : Int) else totalSamples
  let pq : ℚ := ((periodOrDefault data : Int) : ℚ)
  let lmFinal := st.locationMetricsMap.map (fun kv =>
    (kv.1,
      if isNs then
        let m := kv.2
        let totalTime : ℚ := (m.samples : ℚ)
        let totalPercent := totalTime / (durationNs : ℚ) * 100
        { m with totalTime := totalTime, totalPercent := totalPercent,
                 selfTime := totalTime, selfPercent := totalPercent,
                 samples := jsRound (totalTime / pq) }
      else
        let m := kv.2
        let totalPercent := (m.samples : ℚ) / (actualTotalSamples : ℚ) * 100
        let totalTime := totalPercent / 100 * (durationNs : ℚ)
        { m with totalPercent := totalPercent, totalTime := totalTime,
                 selfPercent := totalPercent, selfTime := totalTime }))
  let fileMetrics := lmFinal.foldl (fun fm kv =>
      let m := kv.2
      let fileName := m.location.fileName
      let fm := if (sGet fm fileName).isSome then fm
        else fm ++ [(fileName, ⟨fileName, 0, 0, [], []⟩)]
      sModify fm fileName (fun f =>
        { f with lineMetrics := assocSet f.lineMetrics m.location.line m,
                 totalTime := f.totalTime + m.totalTime,
                 totalPercent := f.totalPercent + m.totalPercent })) []
  let topFunctions := Js.jsSortBy (fun a b => decide (b.totalTime ≤ a.totalTime))
    (lmFinal.map (fun kv =>
      ({ name := kv.2.location.functionName, fileName := kv.2.location.fileName,
         startLine := kv.2.location.line, selfTime := kv.2.selfTime,
         totalTime := kv.2.totalTime, selfPercent := kv.2.selfPercent,
         totalPercent := kv.2.totalPercent, samples := kv.2.samples } : FunctionMetrics)))
  let builder := CallTree.sortChildren (CallTree.calculatePercentages st.builder durationNs)
  let callTree := CallTree.getRoots builder
  { totalSamples := actualTotalSamples,
    durationNs := durationNs,
    sampleRate := if data.period = 0 then 100 else data.period,
    sampleType := (if sampleTypeName data = "" then "cpu" else sampleTypeName data),
    fileMetrics := fileMetrics,
    topFunctions := topFunctions,
    callTree := callTree,
    nodeMap := builder.nodeMap,
    locationMetricsMap := lmFinal }

end PprofParser

namespace PathMapper

/-! ### Candidate scoring of `findFileInWorkspace`, from
`src/utils/pathMapper.ts` (lines 63–219).

The VS Code file discovery (`findFiles`) is an external collaborator; the
model takes the discovered candidate list as input, as the specification
does.  The sibling-function inference block (lines 112–129) only runs when
a profile object is supplied; the model covers calls without one, which is
the shape the claim quantifies over. -/

/-- `path.split(path.sep).filter(p => p)` with the POSIX separator. -/
def splitPath (p : String) : List String :=
  (Js.jsSplit (Char.ofNat 47) p).filter (fun q => q ≠ "")

/-- The generic path prefixes skipped during hint extraction. -/
def genericPrefixes : List String := ["usr", "src", "app", "go", "code", "workspace"]

/-- Hints extracted from the profiled path's segments (all but the last
segment; keep those containing `service` or sitting right before the
filename; pushes are not deduplicated, as in the source). -/
def pathHints (pathParts : List String) : List String :=
  (List.range (pathParts.length - 1)).foldl (fun hints i =>
    match pathParts.get? i with
    | none => hints
    | some part =>
      if genericPrefixes.contains (Js.toLowerStr part) then hints
      else if Js.strHasSub part "service" || i == pathParts.length - 2 then
        hints ++ [Js.toLowerStr part]
      else hints) []

/-- JS `\w` character class. -/
def isWordChar (c : Char) : Bool :=
  (48 ≤ c.toNat && c.toNat ≤ 57) || (65 ≤ c.toNat && c.toNat ≤ 90) ||
    (97 ≤ c.toNat && c.toNat ≤ 122) || c == '_'

/-- One attempted match of the receiver regex at the current position:
an opening parenthesis, an optional star, at least one word character
(captured), a closing parenthesis and a dot. -/
def receiverAt (cs : List Char) : Option (List Char) :=
  match cs with
  | '(' :: rest =>
    let rest2 := match rest with
      | '*' :: r => r
      | r => r
    let w := rest2.takeWhile isWordChar
    if w.isEmpty then none
    else
      match rest2.drop w.length with
      | ')' :: '.' :: _ => some w
      | _ => none
  | _ => none

/-- First match of the receiver regex over the whole string. -/
def findReceiver : List Char → Option (List Char)
  | [] => none
  | c :: rest =>
    match receiverAt (c :: rest) with
    | some w => some w
    | none => findReceiver rest

/-- Hints contributed by the function name: the method-receiver type if the
receiver pattern matches, else the package segment of a slash-separated
name (when it is not `main`); duplicates are not pushed again. -/
def functionHints (hints : List String) (functionName : String) : List String :=
  match findReceiver functionName.data with
  | some w =>
    let hint := Js.toLowerStr (String.mk w)
    if hints.contains hint then hints else hints ++ [hint]
  | none =>
    let parts := Js.jsSplit (Char.ofNat 47) functionName
    if 1 < parts.length then
      let pkgPart := (Js.jsSplit (Char.ofNat 46) (parts.getLastD "")).headD ""
      let hint := Js.toLowerStr pkgPart
      if hint ≠ "main" ∧ ¬ hints.contains hint then hints ++ [hint] else hints
    else hints

/-- All service hints extracted from the profiled path and the optional
function name. -/
def serviceHints (profilePath : String) (functionName : Option String) : List String :=
  let pathParts := splitPath profilePath
  let hints := pathHints pathParts
  match functionName with
  | some fn => functionHints hints fn
  | none => hints

/-- Number of equal leading elements of two lists (applied to reversed
segment lists: consecutive matches counted from the end of both paths). -/
def countEqFromEnd : List String → List String → Nat
  | a :: as, b :: bs => if a = b then 1 + countEqFromEnd as bs else 0
  | _, _ => 0

/-- The hint-score fold of the scoring loop: per hint, a full-segment
occurrence of `/hint/` is worth 100, a bare substring occurrence 50, and
the running maximum is kept. -/
def hintScore (hints : List String) (filePathLower : String) : Nat :=
  hints.foldl (fun maxHintScore hint =>
    if Js.strHasSub filePathLower ("/" ++ hint ++ "/") then
      if maxHintScore < 100 then 100 else maxHintScore
    else if Js.strHasSub filePathLower hint then
      if maxHintScore < 50 then 50 else maxHintScore
    else maxHintScore) 0

/-- Score of one candidate path, exactly as the source loop computes it. -/
def scoreCandidate (hints : List String) (profileParts : List String)
    (filePath : String) : Nat :=
  let fileParts := splitPath filePath
  let filePathLower := Js.toLowerStr filePath
  let score := hintScore hints filePathLower
  let score := score + countEqFromEnd profileParts.reverse fileParts.reverse * 10
  profileParts.foldl (fun s p => if fileParts.contains p then s + 5 else s) score

/-- The best-match selection loop (`score > bestScore` keeps the first
candidate on ties; a null result when every score is zero). -/
def findBestMatch (profilePath : String) (functionName : Option String)
    (files : List String) : Option String :=
  let hints := serviceHints profilePath functionName
  let profileParts := splitPath profilePath
  (files.foldl (fun acc f =>
    let score := scoreCandidate hints profileParts f
    if acc.2 < score then (some f, score) else acc)
    ((none : Option String), 0)).1

/-- The scoring rule as the specification words it: +100 if the candidate
contains `/hint/` as a full segment for any hint, else +50 if it merely
contains the hint substring; +10 per consecutive matching path segment
counted from the end; +5 per segment of the profiled path present anywhere
in the candidate. -/
def claimScore (hints : List String) (profileParts : List String)
    (filePath : String) : Nat :=
  let fileParts := splitPath filePath
  let lower := Js.toLowerStr filePath
  let hintPart : Nat :=
    if hints.any (fun h => Js.strHasSub lower ("/" ++ h ++ "/")) then 100
    else if hints.any (fun h => Js.strHasSub lower h) then 50
    else 0
  hintPart + countEqFromEnd profileParts.reverse fileParts.reverse * 10 +
    5 * profileParts.countP (fun p => fileParts.contains p)

/-- Running maximum of candidate scores (proof helper used to characterise
the selection loop). -/
def maxScoreAcc (g : String → Nat) (s : Nat) (files : List String) : Nat :=
  files.foldl (fun m f => max m (g f)) s

/-- The selection rule as the specification words it: the first candidate
holding the (positive) maximal score; no match when there are no candidates
or all scores are zero. -/
def claimSelect (profilePath : String) (functionName : Option String)
    (files : List String) : Option String :=
  let hints := serviceHints profilePath functionName
  let profileParts := splitPath profilePath
  files.find? (fun f => decide (0 < claimScore hints profileParts f ∧
    ∀ g ∈ files, claimScore hints profileParts g ≤ claimScore hints profileParts f))

end PathMapper

namespace PprofParser

/-! ### `parseBuffer` / `parseTextFormat`, from `src/parsers/pprofParser.ts` -/

/-- The `ProfileData` value returned by the text-format parser (its
`fileMetrics` map and `topFunctions` list are always freshly created and
left empty; it carries no call tree). -/
structure ProfileData where
  totalSamples : ℚ
  durationNs : ℚ
  sampleRate : ℚ
  sampleType : String
  fileMetrics : List (String × FileMetrics)
  topFunctions : List FunctionMetrics
  deriving DecidableEq, Repr

/-- ASCII digit test (JS `\d`). -/
def isDigit (c : Char) : Bool := 48 ≤ c.toNat && c.toNat ≤ 57

/-- JS `\s` character class. -/
def isJsWs (c : Char) : Bool :=
  c == ' ' || c == Char.ofNat 9 || c == Char.ofNat 10 || c == Char.ofNat 11 ||
  c == Char.ofNat 12 || c == Char.ofNat 13 || c == Char.ofNat 0xa0 ||
  c == Char.ofNat 0x1680 || (0x2000 ≤ c.toNat && c.toNat ≤ 0x200a) ||
  c == Char.ofNat 0x2028 || c == Char.ofNat 0x2029 || c == Char.ofNat 0x202f ||
  c == Char.ofNat 0x205f || c == Char.ofNat 0x3000 || c == Char.ofNat 0xfeff

/-- Numeric value of a digit list. -/
def digitsVal (ds : List Char) : Nat := ds.foldl (fun a c => a * 10 + (c.toNat - 48)) 0

/-- One attempted match of `Total:\s+(\d+)` at the current position. -/
def totalMatchAt (cs : List Char) : Option Nat :=
  if Js.listStartsWith "Total:".data cs then
    let rest := cs.drop 6
    let ws := rest.takeWhile isJsWs
    if ws.isEmpty then none
    else
      let ds := (rest.drop ws.length).takeWhile isDigit
      if ds.isEmpty then none else some (digitsVal ds)
  else none

/-- First match of `Total:\s+(\d+)` over a line (the character classes of
the pattern are pairwise disjoint, so greedy matching needs no
backtracking). -/
def totalMatch : List Char → Option Nat
  | [] => none
  | c :: rest =>
    match totalMatchAt (c :: rest) with
    | some n => some n
    | none => totalMatch rest

/-- JS `[\d.]` character class. -/
def isDigitDot (c : Char) : Bool := isDigit c || c == '.'

/-- JS `parseFloat` on a `[\d.]+` capture: digits, then an optional dot and
fraction digits; anything after a second dot is ignored; `none` models `NaN`
(a dot with no digits at all). -/
def parseFloatCap (cs : List Char) : Option ℚ :=
  let intPart := cs.takeWhile isDigit
  match cs.drop intPart.length with
  | '.' :: rest2 =>
    let frac := rest2.takeWhile isDigit
    if intPart.isEmpty ∧ frac.isEmpty then none
    else some ((digitsVal intPart : ℚ) + (digitsVal frac : ℚ) / ((10 : ℚ) ^ frac.length))
  | _ => if intPart.isEmpty then none else some ((digitsVal intPart : ℚ))

/-- The duration unit alternation `(s|ms|ns)`, tried in that order. -/
inductive DurUnit where
  | sec
  | ms
  | ns
  deriving DecidableEq, Repr

/-- Match of the unit alternation at the current position. -/
def unitAt (cs : List Char) : Option DurUnit :=
  match cs with
  | 's' :: _ => some .sec
  | 'm' :: 's' :: _ => some .ms
  | 'n' :: 's' :: _ => some .ns
  | _ => none

/-- One attempted match of `Duration:\s+([\d.]+)(s|ms|ns)` at the current
position (the `[\d.]` class is disjoint from `\s` and from the unit
letters, so greedy matching is exact). -/
def durationMatchAt (cs : List Char) : Option (Option ℚ × DurUnit) :=
  if Js.listStartsWith "Duration:".data cs then
    let rest := cs.drop 9
    let ws := rest.takeWhile isJsWs
    if ws.isEmpty then none
    else
      let rest2 := rest.drop ws.length
      let cap := rest2.takeWhile isDigitDot
      if cap.isEmpty then none
      else
        match unitAt (rest2.drop cap.length) with
        | some u => some (parseFloatCap cap, u)
        | none => none
  else none

/-- First match of the duration pattern over a line. -/
def durationMatch : List Char → Option (Option ℚ × DurUnit)
  | [] => none
  | c :: rest =>
    match durationMatchAt (c :: rest) with
    | some r => some r
    | none => durationMatch rest

/-- The header loop of `parseTextFormat` over one line: a `Total:` match
overwrites `totalSamples`; a `Duration:` match overwrites `durationNs`
scaled by the unit (`none` in the second component models a `NaN`
duration). -/
def textHeaderStep (st : Nat × Option ℚ) (line : String) : Nat × Option ℚ :=
  let st1 : Nat × Option ℚ :=
    match totalMatch line.data with
    | some n => (n, st.2)
    | none => st
  match durationMatch line.data with
  | some (cap, u) =>
    let mult : ℚ := match u with
      | .sec => 1000000000
      | .ms => 1000000
      | .ns => 1
    (st1.1, cap.map (fun q => q * mult))
  | none => st1

/-- `parseTextFormat(text)`: scans the header lines, then returns a
`ProfileData` with empty metrics, applying the `|| 1000` / `|| 10e9`
defaults (which also fire on a zero or `NaN` parsed value). -/
def parseTextFormat (text : String) : ProfileData :=
  let hdr := (Js.jsSplit (Char.ofNat 10) text).foldl textHeaderStep (0, some 0)
  { totalSamples := if hdr.1 = 0 then (1000 : ℚ) else (hdr.1 : ℚ),
    durationNs := match hdr.2 with
      | none => 10000000000
      | some q => if q = 0 then 10000000000 else q,
    sampleRate := 100,
    sampleType := "cpu",
    fileMetrics := [],
    topFunctions := [] }

/-- The routing decision of `parseBuffer`: gzip or raw protobuf buffers go
to the protobuf path, everything else falls back to the text parser (which in
this model is total, so the surrounding `try`/`catch` never fires). -/
inductive ParseRoute where
  | protobuf (buf : List Nat)
  | text (pd : ProfileData)
  deriving DecidableEq, Repr

/-- `parseBuffer(buffer)`: magic-byte sniffing, then routing. -/
def parseBuffer (buf : List Nat) : ParseRoute :=
  if buf.get? 0 = some 0x1f ∧ buf.get? 1 = some 0x8b then .protobuf buf
  else if buf.get? 0 = some 0x0a ∨ buf.get? 0 = some 0x12 then .protobuf buf
  else .text (parseTextFormat (Js.utf8Decode buf))

end PprofParser

namespace PprofProtobuf

/-- Modelled from the spec: the varint encoding of an unsigned integer —
little-endian groups of 7 bits with a continuation bit (§4.1).  The
repository contains no encoder; this definition only serves to state
round-trip claims about `readVarint`. -/
def encodeVarintAux : Nat → Nat → List Nat
  | 0, _ => []
  | fuel + 1, n =>
    if n < 128 then [n]
    else (128 + n % 128) :: encodeVarintAux fuel (n / 128)

/-- Modelled from the spec (§4.1): varint encoding entry point. -/
def encodeVarint (n : Nat) : List Nat := encodeVarintAux (n + 1) n

end PprofProtobuf

namespace CallTree

/-- The node-map key a frame maps to. -/
def frameId (fr : Frame) : String :=
  createNodeId fr.functionName fr.fileName fr.line

/-- Run a sequence of `addStack(stack, value, totalDuration)` calls on a
fresh builder. -/
def runOps (ops : List (List Frame × Int × Int)) : BuilderState :=
  ops.foldl (fun st op => addStack st op.1 op.2.1 op.2.2) emptyBuilder

end CallTree

namespace PprofParser

/-- The call-tree frame a resolvable line entry contributes: names from the
string table (with the `|| 'unknown'` fallback) and the function's
declaration line. -/
def frameOfLine (stringTable : List String) (functionMap : List (Int × PprofProtobuf.Func))
    (le : PprofProtobuf.Line) : Option CallTree.Frame :=
  match assocGet functionMap le.functionId with
  | none => none
  | some func =>
    some ⟨jsIndexStr stringTable func.name "unknown",
      jsIndexStr stringTable func.filename "unknown", func.startLine⟩

/-- Every call-tree frame any sample of the profile can resolve to
(duplicate location ids included; the processed subset is a subset of
these). -/
def allFrames (data : PprofProtobuf.PprofProfile) : List CallTree.Frame :=
  data.sample.flatMap (fun s => s.locationId.flatMap (fun lid =>
    match assocGet (locationMapOf data) lid with
    | none => []
    | some loc =>
      if loc.line.isEmpty then []
      else loc.line.filterMap (frameOfLine data.stringTable (functionMapOf data))))

/-- Sum over the samples of `Number(sample.value[0] || 0n)`. -/
def sumSampleValues (data : PprofProtobuf.PprofProfile) : Int :=
  (data.sample.map (fun s => s.value.headD 0)).sum

/-- The total-duration rule as the claim words it: the sum of sample values
for a nanosecond unit; else the explicit duration field when positive; else
the total sample count multiplied by the sampling period. -/
def claimDuration (data : PprofProtobuf.PprofProfile) : Int :=
  if unitIsNanoseconds data then sumSampleValues data
  else if 0 < data.durationNanos then data.durationNanos
  else sumSampleValues data * data.period

/-- The amended total-duration rule: as `claimDuration`, except that a zero
sampling period falls back to 10,000,000 ns (the `|| 10000000` default in
the source). -/
def amendedDuration (data : PprofProtobuf.PprofProfile) : Int :=
  if unitIsNanoseconds data then sumSampleValues data
  else if 0 < data.durationNanos then data.durationNanos
  else sumSampleValues data * periodOrDefault data

end PprofParser

namespace Fixtures

open PprofProtobuf

/-- A profile whose sample stack passes through two distinct locations that
both resolve to the same function (direct recursion with distinct program
counters): function 1 declared at line 1 of `file`, sampled at lines 10 and
20, one sample of value 5. -/
def recursionProfile : PprofProfile :=
  ⟨[], [⟨[1, 2], [5]⟩], [], [⟨1, 0, 0, [⟨1, 10⟩]⟩, ⟨2, 0, 0, [⟨1, 20⟩]⟩],
    [⟨1, 1, 0, 2, 1⟩], ["", "f", "file"], 0, 0, 0⟩

/-- A profile with two frames of different identities whose composite node
ids collide: `(file "f", line 1, name "2:g")` and `(file "f:1", line 2,
name "g")` both key to the string `f:1:2:g`. -/
def collisionProfile : PprofProfile :=
  ⟨[], [⟨[1], [1]⟩, ⟨[2], [1]⟩], [], [⟨1, 0, 0, [⟨1, 5⟩]⟩, ⟨2, 0, 0, [⟨2, 7⟩]⟩],
    [⟨1, 2, 0, 1, 1⟩, ⟨2, 4, 0, 3, 2⟩], ["", "f", "2:g", "f:1", "g"], 0, 0, 0⟩

/-- A plain one-function profile: `g` declared at line 10 of `f`, one sample
of value 7 recorded at line 20. -/
def plainProfile : PprofProfile :=
  ⟨[], [⟨[1], [7]⟩], [], [⟨1, 0, 0, [⟨1, 20⟩]⟩], [⟨1, 1, 0, 2, 10⟩],
    ["", "g", "f"], 0, 0, 0⟩

/-- A count-unit profile with no explicit duration and a zero period: one
sample of value 3. -/
def countPeriodZeroProfile : PprofProfile :=
  ⟨[⟨1, 2⟩], [⟨[], [3]⟩], [], [], [], ["", "samples", "count"], 0, 0, 0⟩

/-- Two stacks sharing their innermost frame `c` under the distinct outer
frames `a` and `b` (stacks are innermost-first, as `addStack` expects). -/
def twoParentOps : List (List CallTree.Frame × Int × Int) :=
  [([⟨"c", "fc", 3⟩, ⟨"a", "fa", 1⟩], 1, 0), ([⟨"c", "fc", 3⟩, ⟨"b", "fb", 2⟩], 1, 0)]

end Fixtures

section CallTreeLemmas

open CallTree

theorem mapGet_some_mem {m : List (String × CallTreeNode)} {k : String} {v : CallTreeNode}
    (h : mapGet m k = some v) : (k, v) ∈ m := by
  induction m with
  | nil => simp [mapGet] at h
  | cons kv rest ih =>
    rw [mapGet] at h
    split at h
    · next heq =>
      have hkv : (k, v) = kv := by
        injection h with h2
        rw [← heq, ← h2]
      rw [hkv]
      exact List.mem_cons_self _ _
    · exact List.mem_cons_of_mem _ (ih h)

theorem mem_mapModify {m : List (String × CallTreeNode)} {k : String}
    {f : CallTreeNode → CallTreeNode} {x : String × CallTreeNode}
    (hx : x ∈ mapModify m k f) :
    x ∈ m ∨ ∃ v, mapGet m k = some v ∧ x = (k, f v) := by
  induction m with
  | nil => simp [mapModify] at hx
  | cons kv rest ih =>
    rw [mapModify] at hx
    split at hx
    · next heq =>
      rcases List.mem_cons.mp hx with h1 | h1
      · right; exact ⟨kv.2, by rw [mapGet, if_pos heq], by simp [h1, heq]⟩
      · left; exact List.mem_cons_of_mem _ h1
    · next hne =>
      rcases List.mem_cons.mp hx with h1 | h1
      · left; simp [h1]
      · rcases ih h1 with h2 | ⟨v, hv, hxv⟩
        · left; exact List.mem_cons_of_mem _ h2
        · right; exact ⟨v, by rw [mapGet, if_neg hne]; exact hv, hxv⟩

theorem mapModify_keys (m : List (String × CallTreeNode)) (k : String)
    (f : CallTreeNode → CallTreeNode) :
    (mapModify m k f).map Prod.fst = m.map Prod.fst := by
  induction m with
  | nil => rfl
  | cons kv rest ih =>
    rw [mapModify]
    split
    · simp
    · simp [ih]

theorem mapGet_mapModify_self (m : List (String × CallTreeNode)) (k : String)
    (f : CallTreeNode → CallTreeNode) :
    mapGet (mapModify m k f) k = (mapGet m k).map f := by
  induction m with
  | nil => rfl
  | cons kv rest ih =>
    rw [mapModify]
    split
    · next heq => rw [mapGet, if_pos heq, mapGet, if_pos heq]; rfl
    · next hne => rw [mapGet, if_neg hne, mapGet, if_neg hne, ih]

theorem mapGet_mapModify_ne (m : List (String × CallTreeNode)) (k k2 : String)
    (f : CallTreeNode → CallTreeNode) (h : k2 ≠ k) :
    mapGet (mapModify m k f) k2 = mapGet m k2 := by
  induction m with
  | nil => rfl
  | cons kv rest ih =>
    rw [mapModify]
    split
    · next heq =>
      rw [mapGet, mapGet]
      rw [if_neg (by rw [heq]; exact fun hh => h hh.symm),
        if_neg (by rw [heq]; exact fun hh => h hh.symm)]
    · next hne => rw [mapGet, mapGet]; split <;> simp [ih]

theorem mapGet_append_single (m : List (String × CallTreeNode)) (k : String)
    (v : CallTreeNode) (k2 : String) :
    mapGet (m ++ [(k, v)]) k2 =
      match mapGet m k2 with
      | some x => some x
      | none => if k = k2 then some v else none := by
  induction m with
  | nil => simp [mapGet]
  | cons kv rest ih =>
    rw [List.cons_append, mapGet, mapGet]
    split
    · rfl
    · exact ih

theorem mapModify_mapModify_same (m : List (String × CallTreeNode)) (k : String)
    (f g : CallTreeNode → CallTreeNode) :
    mapModify (mapModify m k f) k g = mapModify m k (fun n => g (f n)) := by
  induction m with
  | nil => rfl
  | cons kv rest ih =>
    rw [mapModify]
    split
    · next heq => rw [mapModify, if_pos heq, mapModify, if_pos heq]
    · next hne => rw [mapModify, mapModify, if_neg hne, if_neg hne, ih]

theorem updateNode_nodeMap (st : BuilderState) (k : String) (f : CallTreeNode → CallTreeNode) :
    (updateNode st k f).nodeMap = mapModify st.nodeMap k f := rfl

theorem updateNode_updateNode_same (st : BuilderState) (k : String)
    (f g : CallTreeNode → CallTreeNode) :
    updateNode (updateNode st k f) k g = updateNode st k (fun n => g (f n)) := by
  unfold updateNode
  simp [mapModify_mapModify_same]

theorem getOrCreateNode_snd (st : BuilderState) (fn file : String) (line : Int) :
    (getOrCreateNode st fn file line).2 = createNodeId fn file line := by
  simp only [getOrCreateNode]
  cases mapGet st.nodeMap (createNodeId fn file line) <;> rfl

theorem inv_updateNode {P : String → CallTreeNode → Prop} {st : BuilderState} {k : String}
    {f : CallTreeNode → CallTreeNode}
    (hf : ∀ k2 n, P k2 n → P k2 (f n)) (h : ∀ kn ∈ st.nodeMap, P kn.1 kn.2) :
    ∀ kn ∈ (updateNode st k f).nodeMap, P kn.1 kn.2 := by
  intro kn hkn
  rcases mem_mapModify hkn with h1 | ⟨w, hw, hx⟩
  · exact h _ h1
  · subst hx; exact hf _ _ (h _ (mapGet_some_mem hw))

theorem inv_getOrCreateNode {P : String → CallTreeNode → Prop} {st : BuilderState}
    {fn file : String} {line : Int}
    (hP0 : P (createNodeId fn file line) (newNode fn file line (createNodeId fn file line)))
    (h : ∀ kn ∈ st.nodeMap, P kn.1 kn.2) :
    ∀ kn ∈ (getOrCreateNode st fn file line).1.nodeMap, P kn.1 kn.2 := by
  simp only [getOrCreateNode]
  cases hg : mapGet st.nodeMap (createNodeId fn file line) with
  | some n => simpa using h
  | none =>
    intro kn hkn
    simp only [List.mem_append, List.mem_singleton] at hkn
    rcases hkn with h1 | h1
    · exact h _ h1
    · rw [h1]; exact hP0

theorem inv_linkParent {P : String → CallTreeNode → Prop} {st : BuilderState}
    {nid : String} {par : Option String}
    (hchild : ∀ k n c, P k n → P k { n with children := n.children ++ [c] })
    (hparent : ∀ k n p, P k n → P k { n with parent := some p })
    (hinvoc : ∀ k n, P k n → P k { n with invocations := n.invocations + 1 })
    (h : ∀ kn ∈ st.nodeMap, P kn.1 kn.2) :
    ∀ kn ∈ (linkParent nid par st).nodeMap, P kn.1 kn.2 := by
  cases par with
  | none =>
    simp only [linkParent]
    split
    · exact h
    · exact h
  | some pid =>
    simp only [linkParent]
    apply inv_updateNode hinvoc
    cases hp : mapGet st.nodeMap pid with
    | none => simpa using h
    | some p =>
      by_cases hc : nid ∈ p.children
      · simp only [if_pos hc]; exact h
      · simp only [if_neg hc]
        apply inv_updateNode (fun k2 n hh => hparent k2 n pid hh)
        exact inv_updateNode (fun k2 n hh => hchild k2 n nid hh) h

theorem inv_addStackStep {P : String → CallTreeNode → Prop}
    {v : Int} {par : Option String} {frame : Frame} {isLast : Bool} {st : BuilderState}
    (hP0 : P (createNodeId frame.functionName frame.fileName frame.line)
      (newNode frame.functionName frame.fileName frame.line
        (createNodeId frame.functionName frame.fileName frame.line)))
    (hf1 : ∀ k n, P k n → P k { n with totalTime := n.totalTime + v, samples := n.samples + 1 })
    (hf1s : ∀ k n, P k n → P k { n with totalTime := n.totalTime + v, samples := n.samples + 1, selfTime := n.selfTime + v })
    (hchild : ∀ k n c, P k n → P k { n with children := n.children ++ [c] })
    (hparent : ∀ k n p, P k n → P k { n with parent := some p })
    (hinvoc : ∀ k n, P k n → P k { n with invocations := n.invocations + 1 })
    (h : ∀ kn ∈ st.nodeMap, P kn.1 kn.2) :
    ∀ kn ∈ (addStackStep v par frame isLast st).1.nodeMap, P kn.1 kn.2 := by
  have h0 := inv_getOrCreateNode hP0 h
  simp only [addStackStep, getOrCreateNode_snd]
  cases isLast with
  | false =>
    simp only [if_neg (by simp : ¬ (false = true))]
    exact inv_linkParent hchild hparent hinvoc (inv_updateNode hf1 h0)
  | true =>
    simp only [if_pos rfl]
    rw [updateNode_updateNode_same]
    exact inv_linkParent hchild hparent hinvoc (inv_updateNode (fun k2 n hh => hf1s k2 n hh) h0)

theorem inv_addStackFrames {P : String → CallTreeNode → Prop} {v : Int}
    (hf1 : ∀ k n, P k n → P k { n with totalTime := n.totalTime + v, samples := n.samples + 1 })
    (hf1s : ∀ k n, P k n → P k { n with totalTime := n.totalTime + v, samples := n.samples + 1, selfTime := n.selfTime + v })
    (hchild : ∀ k n c, P k n → P k { n with children := n.children ++ [c] })
    (hparent : ∀ k n p, P k n → P k { n with parent := some p })
    (hinvoc : ∀ k n, P k n → P k { n with invocations := n.invocations + 1 }) :
    ∀ (frames : List Frame) (st : BuilderState) (par : Option String),
    (∀ fr ∈ frames, P (createNodeId fr.functionName fr.fileName fr.line)
      (newNode fr.functionName fr.fileName fr.line
        (createNodeId fr.functionName fr.fileName fr.line))) →
    (∀ kn ∈ st.nodeMap, P kn.1 kn.2) →
    ∀ kn ∈ (addStackFrames v st par frames).nodeMap, P kn.1 kn.2 := by
  intro frames
  induction frames with
  | nil => intro st par _ h; exact h
  | cons frame rest ih =>
    intro st par hP0 h
    rw [addStackFrames]
    exact ih _ _ (fun fr hfr => hP0 fr (List.mem_cons_of_mem _ hfr))
      (inv_addStackStep (hP0 frame (List.mem_cons_self _ _)) hf1 hf1s hchild hparent hinvoc h)

end CallTreeLemmas

section CallTreeLemmas2

open CallTree

theorem mapGet_eq_none_iff (m : List (String × CallTreeNode)) (k : String) :
    mapGet m k = none ↔ k ∉ m.map Prod.fst := by
  induction m with
  | nil => simp [mapGet]
  | cons kv rest ih =>
    rw [mapGet]
    split
    · next heq => simp [heq]
    · next hne => simpa [Ne.symm hne] using ih

theorem isSome_updateNode (st : BuilderState) (k : String) (f : CallTreeNode → CallTreeNode)
    (k2 : String) :
    (mapGet (updateNode st k f).nodeMap k2).isSome = (mapGet st.nodeMap k2).isSome := by
  by_cases h : k2 = k
  · subst h; rw [updateNode_nodeMap, mapGet_mapModify_self]; cases mapGet st.nodeMap k2 <;> rfl
  · rw [updateNode_nodeMap, mapGet_mapModify_ne _ _ _ _ h]

theorem isSome_getOrCreateNode_mono {st : BuilderState} {fn file : String} {line : Int}
    {k2 : String} (h : (mapGet st.nodeMap k2).isSome) :
    (mapGet (getOrCreateNode st fn file line).1.nodeMap k2).isSome := by
  simp only [getOrCreateNode]
  cases hg : mapGet st.nodeMap (createNodeId fn file line) with
  | some n => exact h
  | none =>
    rw [mapGet_append_single]
    cases hm : mapGet st.nodeMap k2 with
    | some x => rfl
    | none => rw [hm] at h; simp at h

theorem getOrCreateNode_creates (st : BuilderState) (fn file : String) (line : Int) :
    (mapGet (getOrCreateNode st fn file line).1.nodeMap (createNodeId fn file line)).isSome := by
  simp only [getOrCreateNode]
  cases hg : mapGet st.nodeMap (createNodeId fn file line) with
  | some n => rw [hg]; rfl
  | none => rw [mapGet_append_single, hg]; simp

theorem isSome_linkParent (nid : String) (par : Option String) (st : BuilderState)
    (k2 : String) (h : (mapGet st.nodeMap k2).isSome) :
    (mapGet (linkParent nid par st).nodeMap k2).isSome := by
  cases par with
  | none =>
    simp only [linkParent]
    split
    · exact h
    · exact h
  | some pid =>
    simp only [linkParent]
    rw [isSome_updateNode]
    cases hp : mapGet st.nodeMap pid with
    | none => exact h
    | some p =>
      dsimp only
      by_cases hc : nid ∈ p.children
      · rw [if_pos hc]; exact h
      · rw [if_neg hc, isSome_updateNode, isSome_updateNode]; exact h

theorem isSome_addStackStep_mono {v : Int} {par : Option String} {frame : Frame}
    {isLast : Bool} {st : BuilderState} {k2 : String}
    (h : (mapGet st.nodeMap k2).isSome) :
    (mapGet (addStackStep v par frame isLast st).1.nodeMap k2).isSome := by
  simp only [addStackStep]
  apply isSome_linkParent
  cases isLast with
  | false =>
    simp only [Bool.false_eq_true, if_false, isSome_updateNode]
    exact isSome_getOrCreateNode_mono h
  | true =>
    simp only [if_true, isSome_updateNode]
    exact isSome_getOrCreateNode_mono h

theorem addStackStep_creates (v : Int) (par : Option String) (frame : Frame)
    (isLast : Bool) (st : BuilderState) :
    (mapGet (addStackStep v par frame isLast st).1.nodeMap
      (createNodeId frame.functionName frame.fileName frame.line)).isSome := by
  simp only [addStackStep]
  apply isSome_linkParent
  cases isLast with
  | false =>
    simp only [Bool.false_eq_true, if_false, isSome_updateNode]
    exact getOrCreateNode_creates _ _ _ _
  | true =>
    simp only [if_true, isSome_updateNode]
    exact getOrCreateNode_creates _ _ _ _

theorem isSome_addStackFrames_mono {v : Int} :
    ∀ (frames : List Frame) (st : BuilderState) (par : Option String) (k2 : String),
    (mapGet st.nodeMap k2).isSome →
    (mapGet (addStackFrames v st par frames).nodeMap k2).isSome := by
  intro frames
  induction frames with
  | nil => intro st par k2 h; exact h
  | cons frame rest ih =>
    intro st par k2 h
    rw [addStackFrames]
    exact ih _ _ _ (isSome_addStackStep_mono h)

theorem addStackFrames_mem_isSome {v : Int} :
    ∀ (frames : List Frame) (st : BuilderState) (par : Option String) {fr : Frame},
    fr ∈ frames →
    (mapGet (addStackFrames v st par frames).nodeMap (frameId fr)).isSome := by
  intro frames
  induction frames with
  | nil => intro st par fr h; simp at h
  | cons frame rest ih =>
    intro st par fr h
    rw [addStackFrames]
    rcases List.mem_cons.mp h with h1 | h1
    · subst h1
      exact isSome_addStackFrames_mono _ _ _ _ (addStackStep_creates _ _ _ _ _)
    · exact ih _ _ h1

end CallTreeLemmas2

section C8Proof

open CallTree

/-- C8: after any sequence of `addStack` calls with nonnegative values, every
node's total time is at least its self time. -/
theorem totalTime_ge_selfTime (ops : List (List Frame × Int × Int))
    (hv : ∀ op ∈ ops, 0 ≤ op.2.1) :
    ∀ kn ∈ (runOps ops).nodeMap, kn.2.selfTime ≤ kn.2.totalTime := by
  suffices haux : ∀ (l : List (List Frame × Int × Int)) (st : BuilderState),
      (∀ op ∈ l, 0 ≤ op.2.1) →
      (∀ kn ∈ st.nodeMap, kn.2.selfTime ≤ kn.2.totalTime) →
      ∀ kn ∈ (l.foldl (fun st op => addStack st op.1 op.2.1 op.2.2) st).nodeMap,
        kn.2.selfTime ≤ kn.2.totalTime by
    apply haux ops emptyBuilder hv
    intro kn hkn
    simp [emptyBuilder] at hkn
  intro l
  induction l with
  | nil => intro st _ h; exact h
  | cons op rest ih =>
    intro st hl h
    rw [List.foldl_cons]
    apply ih _ (fun o ho => hl o (List.mem_cons_of_mem _ ho))
    have hv0 : 0 ≤ op.2.1 := hl op (List.mem_cons_self _ _)
    unfold addStack
    split
    · exact h
    · apply inv_addStackFrames (P := fun _ n => n.selfTime ≤ n.totalTime)
        (fun k n hh => by dsimp only; linarith)
        (fun k n hh => by dsimp only; linarith)
        (fun k n c hh => hh)
        (fun k n p hh => hh)
        (fun k n hh => hh)
        _ _ _ (fun fr _ => le_refl _)
        h

end C8Proof

section C3Proof

open CallTree

theorem linkParent_builderInv {nid : String} {par : Option String} {st : BuilderState}
    (hkeys : (st.nodeMap.map Prod.fst).Nodup)
    (hch : ∀ kn ∈ st.nodeMap, kn.2.children.Nodup)
    (hroots : st.roots.Nodup) :
    ((linkParent nid par st).nodeMap.map Prod.fst).Nodup ∧
    (∀ kn ∈ (linkParent nid par st).nodeMap, kn.2.children.Nodup) ∧
    (linkParent nid par st).roots.Nodup := by
  cases par with
  | none =>
    simp only [linkParent]
    split
    · exact ⟨hkeys, hch, hroots⟩
    · next hnin =>
      refine ⟨hkeys, hch, ?_⟩
      simp [List.nodup_append, hroots, hnin]
  | some pid =>
    simp only [linkParent]
    cases hp : mapGet st.nodeMap pid with
    | none =>
      dsimp only
      refine ⟨?_, ?_, hroots⟩
      · rw [updateNode_nodeMap, mapModify_keys]; exact hkeys
      · exact inv_updateNode (P := fun _ n => n.children.Nodup) (fun _ _ hh => by exact hh) hch
    | some p =>
      dsimp only
      by_cases hc : nid ∈ p.children
      · rw [if_pos hc]
        refine ⟨?_, ?_, hroots⟩
        · rw [updateNode_nodeMap, mapModify_keys]; exact hkeys
        · exact inv_updateNode (P := fun _ n => n.children.Nodup) (fun _ _ hh => by exact hh) hch
      · rw [if_neg hc]
        refine ⟨?_, ?_, hroots⟩
        · rw [updateNode_nodeMap, updateNode_nodeMap, updateNode_nodeMap,
            mapModify_keys, mapModify_keys, mapModify_keys]
          exact hkeys
        · apply inv_updateNode (P := fun _ n => n.children.Nodup) (fun _ _ hh => by exact hh)
          apply inv_updateNode (P := fun _ n => n.children.Nodup) (fun _ _ hh => by exact hh)
          intro kn hkn
          rcases mem_mapModify hkn with h2 | ⟨w, hw, hx⟩
          · exact hch _ h2
          · subst hx
            rw [hp] at hw
            injection hw with hw
            subst hw
            dsimp only
            simp [List.nodup_append, hch _ (mapGet_some_mem hp), hc]

theorem getOrCreateNode_builderInv {st : BuilderState} {fn file : String} {line : Int}
    (hkeys : (st.nodeMap.map Prod.fst).Nodup)
    (hch : ∀ kn ∈ st.nodeMap, kn.2.children.Nodup)
    (hroots : st.roots.Nodup) :
    (((getOrCreateNode st fn file line).1.nodeMap.map Prod.fst).Nodup) ∧
    (∀ kn ∈ (getOrCreateNode st fn file line).1.nodeMap, kn.2.children.Nodup) ∧
    (getOrCreateNode st fn file line).1.roots.Nodup := by
  simp only [getOrCreateNode]
  cases hg : mapGet st.nodeMap (createNodeId fn file line) with
  | some n => exact ⟨hkeys, hch, hroots⟩
  | none =>
    refine ⟨?_, ?_, hroots⟩
    · rw [List.map_append]
      simp only [List.map_cons, List.map_nil]
      rw [List.nodup_append]
      refine ⟨hkeys, List.nodup_singleton _, ?_⟩
      intro a ha hb
      simp at hb
      subst hb
      exact (mapGet_eq_none_iff _ _).mp hg ha
    · intro kn hkn
      rcases List.mem_append.mp hkn with h1 | h1
      · exact hch _ h1
      · simp at h1
        rw [h1]
        simp [newNode]

theorem addStackStep_builderInv {v : Int} {par : Option String} {frame : Frame}
    {isLast : Bool} {st : BuilderState}
    (hkeys : (st.nodeMap.map Prod.fst).Nodup)
    (hch : ∀ kn ∈ st.nodeMap, kn.2.children.Nodup)
    (hroots : st.roots.Nodup) :
    (((addStackStep v par frame isLast st).1.nodeMap.map Prod.fst).Nodup) ∧
    (∀ kn ∈ (addStackStep v par frame isLast st).1.nodeMap, kn.2.children.Nodup) ∧
    (addStackStep v par frame isLast st).1.roots.Nodup := by
  obtain ⟨h1, h2, h3⟩ := @getOrCreateNode_builderInv st frame.functionName
    frame.fileName frame.line hkeys hch hroots
  simp only [addStackStep, getOrCreateNode_snd]
  cases isLast with
  | false =>
    simp only [Bool.false_eq_true, if_false]
    apply linkParent_builderInv
    · rw [updateNode_nodeMap, mapModify_keys]; exact h1
    · exact inv_updateNode (P := fun _ n => n.children.Nodup) (fun _ _ hh => by exact hh) h2
    · exact h3
  | true =>
    simp only [if_true]
    rw [updateNode_updateNode_same]
    apply linkParent_builderInv
    · rw [updateNode_nodeMap, mapModify_keys]; exact h1
    · exact inv_updateNode (P := fun _ n => n.children.Nodup) (fun _ _ hh => by exact hh) h2
    · exact h3

theorem addStackFrames_builderInv {v : Int} :
    ∀ (frames : List Frame) (st : BuilderState) (par : Option String),
    (st.nodeMap.map Prod.fst).Nodup →
    (∀ kn ∈ st.nodeMap, kn.2.children.Nodup) →
    st.roots.Nodup →
    (((addStackFrames v st par frames).nodeMap.map Prod.fst).Nodup) ∧
    (∀ kn ∈ (addStackFrames v st par frames).nodeMap, kn.2.children.Nodup) ∧
    (addStackFrames v st par frames).roots.Nodup := by
  intro frames
  induction frames with
  | nil => intro st par h1 h2 h3; exact ⟨h1, h2, h3⟩
  | cons frame rest ih =>
    intro st par h1 h2 h3
    rw [addStackFrames]
    obtain ⟨g1, g2, g3⟩ := @addStackStep_builderInv v par frame rest.isEmpty st h1 h2 h3
    exact ih _ _ g1 g2 g3

/-- C3 amended: node identities are globally unique in the builder (one node
instance per `fileName:line:functionName` string across the whole tree), a
parent's child list never holds the same node twice, and roots are not
duplicated. -/
theorem node_identity_globally_unique (ops : List (List Frame × Int × Int)) :
    (((runOps ops).nodeMap.map Prod.fst).Nodup) ∧
    (∀ kn ∈ (runOps ops).nodeMap, kn.2.children.Nodup) ∧
    (runOps ops).roots.Nodup := by
  suffices haux : ∀ (l : List (List Frame × Int × Int)) (st : BuilderState),
      (st.nodeMap.map Prod.fst).Nodup →
      (∀ kn ∈ st.nodeMap, kn.2.children.Nodup) →
      st.roots.Nodup →
      (((l.foldl (fun st op => addStack st op.1 op.2.1 op.2.2) st).nodeMap.map Prod.fst).Nodup) ∧
      (∀ kn ∈ (l.foldl (fun st op => addStack st op.1 op.2.1 op.2.2) st).nodeMap,
        kn.2.children.Nodup) ∧
      (l.foldl (fun st op => addStack st op.1 op.2.1 op.2.2) st).roots.Nodup by
    apply haux ops emptyBuilder
    · simp [emptyBuilder]
    · intro kn hkn; simp [emptyBuilder] at hkn
    · simp [emptyBuilder]
  intro l
  induction l with
  | nil => intro st h1 h2 h3; exact ⟨h1, h2, h3⟩
  | cons op rest ih =>
    intro st h1 h2 h3
    rw [List.foldl_cons]
    have hstep : (((addStack st op.1 op.2.1 op.2.2).nodeMap.map Prod.fst).Nodup) ∧
        (∀ kn ∈ (addStack st op.1 op.2.1 op.2.2).nodeMap, kn.2.children.Nodup) ∧
        (addStack st op.1 op.2.1 op.2.2).roots.Nodup := by
      unfold addStack
      split
      · exact ⟨h1, h2, h3⟩
      · exact addStackFrames_builderInv _ _ _ h1 h2 h3
    exact ih _ hstep.1 hstep.2.1 hstep.2.2

end C3Proof

section WireTheorems

open PprofProtobuf

/-- C1: the spec demands that decoding any valid varint encoding of an
unsigned 64-bit `v` return `v`, including `v > 2^32`.  The code is wrong:
`readVarint` accumulates through JS 32-bit bitwise operators, so the canonical
encoding of `2^32` decodes to `0`.  The repository's own fix notes document
this hand-rolled decoder as the root cause of the line-number defect. -/
theorem readVarint_wraps_at_2_pow_32 :
    encodeVarint (2 ^ 32) = [0x80, 0x80, 0x80, 0x80, 0x10] ∧
    readVarint [0x80, 0x80, 0x80, 0x80, 0x10] 0 = .ok (0, 5) ∧
    ((0 : Int) ≠ 2 ^ 32) := by
  refine ⟨by decide, by decide, by decide⟩

/-- C4 counterexample: a buffer cut mid-varint (`[0x80]`, continuation bit
set at end of input) decodes to a silent `ok` with the partial value `0`, and
a length-delimited field declaring 5 bytes against an empty remainder yields
a silently clamped empty payload — no structured error in either case, which
falsifies the claim as stated. -/
theorem truncated_input_silently_succeeds :
    readVarint [0x80] 0 = .ok (0, 1) ∧
    readLengthDelimited [0x05] 0 = .ok ([], 6) := by
  refine ⟨by decide, by decide⟩

theorem readVarint_ok_of_out_of_range {buf : List Nat} {off : Int}
    (h : ¬ off < (buf.length : Int)) :
    readVarint buf off = .ok (Js.int32OfPat 0, off) := by
  simp [readVarint, readVarintAux, h]

theorem readVarintAux_all_cont {buf : List Nat} :
    ∀ (k fuel value shift : Nat) (off : Int) (iters : Nat),
    0 ≤ off → off.toNat + k = buf.length →
    (∀ b ∈ buf.drop off.toNat, b &&& 0x80 ≠ 0) →
    iters + k ≤ 9 → k < fuel →
    ∃ pat, readVarintAux buf fuel value shift off iters = (pat, (buf.length : Int), iters + k) := by
  intro k
  induction k with
  | zero =>
    intro fuel value shift off iters h0 hlen _ _ hfuel
    have hoff : off = (buf.length : Int) := by omega
    match fuel, hfuel with
    | fuel + 1, _ =>
      rw [readVarintAux]
      have hneg : ¬ (off < (buf.length : Int) ∧ iters < 10) := by omega
      simp [hneg, hoff]
  | succ k ih =>
    intro fuel value shift off iters h0 hlen hcont hiters hfuel
    match fuel, hfuel with
    | fuel + 1, hfuel =>
      have hltn : off.toNat < buf.length := by omega
      have hlt : off < (buf.length : Int) := by omega
      have hget : buf.get? off.toNat = some (buf.get ⟨off.toNat, hltn⟩) :=
        List.get?_eq_get hltn
      have hdrop : buf.drop off.toNat = buf.get ⟨off.toNat, hltn⟩ :: buf.drop (off.toNat + 1) :=
        List.drop_eq_get_cons hltn
      have hb : buf.get ⟨off.toNat, hltn⟩ &&& 0x80 ≠ 0 := by
        apply hcont
        rw [hdrop]; exact List.mem_cons_self _ _
      rw [readVarintAux]
      rw [if_pos ⟨hlt, by omega⟩]
      rw [show Js.bufGet buf off = some (buf.get ⟨off.toNat, hltn⟩) by
        simp [Js.bufGet, h0, hget]]
      simp only []
      rw [if_neg (by simpa using hb)]
      have hcont2 : ∀ b ∈ buf.drop (off + 1).toNat, b &&& 0x80 ≠ 0 := by
        intro b hbmem
        apply hcont
        rw [hdrop]
        apply List.mem_cons_of_mem
        have heq : (off + 1).toNat = off.toNat + 1 := by omega
        rwa [heq] at hbmem
      obtain ⟨pat, hpat⟩ := ih fuel _ (shift + 7) (off + 1) (iters + 1) (by omega)
        (by omega) hcont2 (by omega) (by omega)
      refine ⟨pat, ?_⟩
      rw [hpat]
      congr 2
      omega

/-- C4 amended: decoding a buffer truncated mid-varint (every remaining byte
carries the continuation bit, fewer than ten of them) never crashes and
raises no structured error — `readVarint` silently returns the partially
accumulated value with the cursor at the end of the buffer (and, as the
counterexample records, `readLengthDelimited` silently clamps an over-long
declared length instead of reporting `TruncatedInput`). -/
theorem readVarint_truncated_returns_partial (buf : List Nat) (off : Int)
    (h0 : 0 ≤ off) (hle : off.toNat ≤ buf.length)
    (hcont : ∀ b ∈ buf.drop off.toNat, b &&& 0x80 ≠ 0)
    (hrem : buf.length - off.toNat ≤ 9) :
    ∃ v, readVarint buf off = .ok (v, (buf.length : Int)) := by
  obtain ⟨pat, hpat⟩ := @readVarintAux_all_cont buf (buf.length - off.toNat) 11 0 0 off 0
    h0 (by omega) hcont (by omega) (by omega)
  refine ⟨Js.int32OfPat pat, ?_⟩
  rw [readVarint, hpat]
  have h2 : ¬ (10 ≤ 0 + (buf.length - off.toNat)) := by omega
  simp [h2]
  omega

/-- C4 witness: the amended statement applied to the one-byte buffer `[0x80]`
truncated mid-varint. -/
theorem readVarint_truncated_witness :
    ((0 : Int) ≤ 0 ∧ (0 : Int).toNat ≤ [0x80].length ∧
      (∀ b ∈ [0x80].drop (0 : Int).toNat, b &&& 0x80 ≠ 0) ∧
      [0x80].length - (0 : Int).toNat ≤ 9) ∧
    ∃ v, readVarint [0x80] 0 = .ok (v, ([0x80].length : Int)) := by
  refine ⟨⟨by decide, by decide, by decide, by decide⟩, ?_⟩
  exact readVarint_truncated_returns_partial [0x80] 0 (by decide) (by decide) (by decide)
    (by decide)

/-- C9 counterexample: on eleven continuation bytes the tag read throws
`MalformedVarint`, yet `parseProtobuf` returns the empty (partially
populated) profile as an ordinary success instead of raising — falsifying
the claim that a structurally unrecoverable failure surfaces as an error. -/
theorem unrecoverable_failure_returns_partial_profile :
    readTag (List.replicate 11 0x80) 0 =
      .error "Invalid varint at offset 0: too many bytes" ∧
    parseProtobuf (List.replicate 11 0x80) = emptyProfile := by
  refine ⟨by decide, by decide⟩

theorem readVarint_error_imp_lt {buf : List Nat} {off : Int} {e : String}
    (h : readVarint buf off = .error e) : off < (buf.length : Int) := by
  by_contra hn
  rw [readVarint_ok_of_out_of_range hn] at h
  exact absurd h (by simp)

/-- C9 amended: when the decoder cannot read the very first field tag (the
structurally unrecoverable case), `parseProtobuf` catches the failure,
breaks out of its loop and returns the profile built so far — the empty
profile — as a successful result; no error reaches the caller. -/
theorem parseProtobuf_tag_error_returns_empty (buf : List Nat) (e : String)
    (h : readTag buf 0 = .error e) :
    parseProtobuf buf = emptyProfile := by
  have hv : readVarint buf 0 = .error e := by
    rw [readTag] at h
    cases hr : readVarint buf 0 with
    | ok x =>
      rw [hr] at h
      simp only [bind, Except.bind] at h
      exact Except.noConfusion h
    | error e2 =>
      rw [hr] at h
      simp only [bind, Except.bind] at h
      injection h with h2
      rw [h2]
  have hlt : (0 : Int) < (buf.length : Int) := readVarint_error_imp_lt hv
  rw [parseProtobuf, parseProtobufAux]
  rw [if_pos hlt, h]

/-- C9 witness: the amended statement applied to eleven continuation
bytes. -/
theorem parseProtobuf_tag_error_witness :
    readTag (List.replicate 11 0x80) 0 =
      .error "Invalid varint at offset 0: too many bytes" ∧
    parseProtobuf (List.replicate 11 0x80) = emptyProfile :=
  ⟨by decide, parseProtobuf_tag_error_returns_empty (List.replicate 11 0x80)
    "Invalid varint at offset 0: too many bytes" (by decide)⟩

end WireTheorems

section BuilderTheorems

open CallTree

/-- C3 counterexample: two stacks route through the same innermost identity
`(c, fc, 3)` under the distinct parents `(a, fa, 1)` and `(b, fb, 2)`.  The
builder produces three nodes, a single instance for the shared identity, and
that one instance appears in the children of both parents (its parent pointer
ends up reassigned to the second parent) — refuting the claim that a
different parent yields a distinct node instance. -/
theorem shared_node_across_parents :
    (runOps Fixtures.twoParentOps).nodeMap.length = 3 ∧
    ((runOps Fixtures.twoParentOps).nodeMap.map Prod.fst).count "fc:3:c" = 1 ∧
    ((mapGet (runOps Fixtures.twoParentOps).nodeMap "fa:1:a").map CallTreeNode.children) =
      some ["fc:3:c"] ∧
    ((mapGet (runOps Fixtures.twoParentOps).nodeMap "fb:2:b").map CallTreeNode.children) =
      some ["fc:3:c"] ∧
    ((mapGet (runOps Fixtures.twoParentOps).nodeMap "fc:3:c").map CallTreeNode.parent) =
      some (some "fb:2:b") := by
  refine ⟨by decide, by decide, by decide, by decide, by decide⟩

/-- C8 witness: the invariant applied to the concrete two-stack run. -/
theorem totalTime_ge_selfTime_witness :
    (∀ op ∈ Fixtures.twoParentOps, 0 ≤ op.2.1) ∧
    (∀ kn ∈ (runOps Fixtures.twoParentOps).nodeMap, kn.2.selfTime ≤ kn.2.totalTime) :=
  ⟨by decide, totalTime_ge_selfTime Fixtures.twoParentOps (by decide)⟩

end BuilderTheorems

section RecursionTheorems

theorem processLineEntry_processed (tbl : List String)
    (fm : List (Int × PprofProtobuf.Func)) (v : Int) (st : PprofParser.SampleLoopState)
    (le : PprofProtobuf.Line) :
    (PprofParser.processLineEntry tbl fm v st le).processedLocations =
      st.processedLocations := by
  rw [PprofParser.processLineEntry]
  cases PprofParser.assocGet fm le.functionId <;> rfl

theorem lineLoop_processed (tbl : List String) (fm : List (Int × PprofProtobuf.Func))
    (v : Int) :
    ∀ (les : List PprofProtobuf.Line) (st : PprofParser.SampleLoopState),
    ((les.foldl (PprofParser.processLineEntry tbl fm v) st).processedLocations =
      st.processedLocations) := by
  intro les
  induction les with
  | nil => intro st; rfl
  | cons le rest ih =>
    intro st
    rw [List.foldl_cons, ih, processLineEntry_processed]

theorem processLocationId_mem (tbl : List String) (lm : List (Int × PprofProtobuf.Location))
    (fm : List (Int × PprofProtobuf.Func)) (v : Int) (st : PprofParser.SampleLoopState)
    (a : Int) :
    a ∈ (PprofParser.processLocationId tbl lm fm v st a).processedLocations := by
  by_cases h : a ∈ st.processedLocations
  · simp only [PprofParser.processLocationId]
    rw [if_pos h]
    exact h
  · simp only [PprofParser.processLocationId]
    rw [if_neg h]
    cases hg : PprofParser.assocGet lm a with
    | none => simp
    | some loc =>
      by_cases hline : loc.line.isEmpty
      · simp [hline]
      · simp [hline, lineLoop_processed]

theorem processLocationId_skip (tbl : List String) (lm : List (Int × PprofProtobuf.Location))
    (fm : List (Int × PprofProtobuf.Func)) (v : Int) (st : PprofParser.SampleLoopState)
    (a : Int) (h : a ∈ st.processedLocations) :
    PprofParser.processLocationId tbl lm fm v st a = st := by
  simp only [PprofParser.processLocationId]
  rw [if_pos h]

/-- C5 counterexample: a sample whose stack passes through two *distinct*
location ids that resolve to the same function id (direct recursion through
different program counters, consecutive in the stack) has its value 5 added
to the recursive node's `totalTime` twice — the node ends with 10, not 5 —
refuting the claim that the value is accumulated exactly once. -/
theorem recursion_double_counts_totalTime :
    (Fixtures.recursionProfile.sample.map (fun s => s.locationId)) = [[1, 2]] ∧
    (Fixtures.recursionProfile.sample.map (fun s => s.value)) = [[5]] ∧
    (Fixtures.recursionProfile.location.map (fun l => l.line.map PprofProtobuf.Line.functionId)) =
      [[1], [1]] ∧
    ((CallTree.mapGet (PprofParser.parseProtobuf Fixtures.recursionProfile).nodeMap
      "file:1:f").map CallTree.CallTreeNode.totalTime) = some 10 ∧
    ((10 : Int) ≠ 5) := by
  refine ⟨by decide, by decide, by decide, by decide, by decide⟩

/-- C5 amended: the per-sample location loop deduplicates by location id, so
a stack whose consecutive frames share the *same* location id contributes
exactly once (the duplicated id is a no-op); but recursion through two
distinct location ids of the same function is counted once per occurrence —
on the concrete profile the recursive node's totalTime is twice the sample
value. -/
theorem consecutive_same_location_counted_once :
    (∀ (tbl : List String) (lm : List (Int × PprofProtobuf.Location))
      (fm : List (Int × PprofProtobuf.Func)) (v : Int)
      (st : PprofParser.SampleLoopState) (a : Int) (rest : List Int),
      List.foldl (PprofParser.processLocationId tbl lm fm v) st (a :: a :: rest) =
        List.foldl (PprofParser.processLocationId tbl lm fm v) st (a :: rest)) ∧
    ((CallTree.mapGet (PprofParser.parseProtobuf Fixtures.recursionProfile).nodeMap
      "file:1:f").map CallTree.CallTreeNode.totalTime) = some (2 * 5) := by
  constructor
  · intro tbl lm fm v st a rest
    rw [List.foldl_cons, List.foldl_cons, List.foldl_cons]
    rw [processLocationId_skip tbl lm fm v _ a (processLocationId_mem tbl lm fm v st a)]
  · decide

end RecursionTheorems

section DurationTheorems

theorem processSample_totalSamples (tbl : List String)
    (lm : List (Int × PprofProtobuf.Location)) (fm : List (Int × PprofProtobuf.Func))
    (st : PprofParser.AggState) (s : PprofProtobuf.Sample) :
    (PprofParser.processSample tbl lm fm st s).totalSamples =
      st.totalSamples + s.value.headD 0 := rfl

theorem sampleLoop_totalSamples (tbl : List String)
    (lm : List (Int × PprofProtobuf.Location)) (fm : List (Int × PprofProtobuf.Func)) :
    ∀ (l : List PprofProtobuf.Sample) (st : PprofParser.AggState),
    (l.foldl (PprofParser.processSample tbl lm fm) st).totalSamples =
      st.totalSamples + (l.map (fun s => s.value.headD 0)).sum := by
  intro l
  induction l with
  | nil => intro st; simp
  | cons s rest ih =>
    intro st
    rw [List.foldl_cons, ih, processSample_totalSamples]
    simp
    omega

/-- C6 counterexample: a count-unit profile with no explicit duration and a
zero sampling period.  The claim formula gives `totalSampleCount * period =
3 * 0 = 0`, but the code substitutes the `|| 10000000` default and produces
`30000000` — so the claim as stated fails. -/
theorem duration_claim_fails_at_zero_period :
    Fixtures.countPeriodZeroProfile.period = 0 ∧
    Fixtures.countPeriodZeroProfile.durationNanos = 0 ∧
    (PprofParser.parseProtobuf Fixtures.countPeriodZeroProfile).durationNs = 30000000 ∧
    PprofParser.claimDuration Fixtures.countPeriodZeroProfile = 0 ∧
    ((30000000 : Int) ≠ 0) := by
  refine ⟨by decide, by decide, by decide, by decide, by decide⟩

/-- C6 amended: the total duration is determined once from `SampleType[0]`'s
unit string — the sum of sample values for a nanosecond unit; otherwise the
explicit duration field when positive; otherwise the total sample count
multiplied by the sampling period, where a zero period falls back to the
10,000,000 ns default. -/
theorem durationNs_eq_amended (data : PprofProtobuf.PprofProfile) :
    (PprofParser.parseProtobuf data).durationNs = PprofParser.amendedDuration data := by
  simp only [PprofParser.parseProtobuf]
  rw [sampleLoop_totalSamples]
  simp only [PprofParser.amendedDuration, PprofParser.sumSampleValues]
  split
  · simp
  · simp

end DurationTheorems

section TextFormatTheorems

theorem textHeaderStep_fst (st : Nat × Option ℚ) (line : String)
    (h : PprofParser.totalMatch line.data = none) :
    (PprofParser.textHeaderStep st line).1 = st.1 := by
  simp only [PprofParser.textHeaderStep, h]
  cases hd : PprofParser.durationMatch line.data with
  | none => rfl
  | some r => cases r with | mk cap u => rfl

theorem textHeaderStep_snd (st : Nat × Option ℚ) (line : String)
    (h : PprofParser.durationMatch line.data = none) :
    (PprofParser.textHeaderStep st line).2 = st.2 := by
  simp only [PprofParser.textHeaderStep, h]
  cases ht : PprofParser.totalMatch line.data <;> rfl

theorem textHeaderLoop_fst :
    ∀ (lines : List String) (st : Nat × Option ℚ),
    (∀ line ∈ lines, PprofParser.totalMatch line.data = none) →
    (lines.foldl PprofParser.textHeaderStep st).1 = st.1 := by
  intro lines
  induction lines with
  | nil => intro st _; rfl
  | cons line rest ih =>
    intro st h
    rw [List.foldl_cons]
    rw [ih _ (fun l hl => h l (List.mem_cons_of_mem _ hl))]
    exact textHeaderStep_fst st line (h line (List.mem_cons_self _ _))

theorem textHeaderLoop_snd :
    ∀ (lines : List String) (st : Nat × Option ℚ),
    (∀ line ∈ lines, PprofParser.durationMatch line.data = none) →
    (lines.foldl PprofParser.textHeaderStep st).2 = st.2 := by
  intro lines
  induction lines with
  | nil => intro st _; rfl
  | cons line rest ih =>
    intro st h
    rw [List.foldl_cons]
    rw [ih _ (fun l hl => h l (List.mem_cons_of_mem _ hl))]
    exact textHeaderStep_snd st line (h line (List.mem_cons_self _ _))

/-- C10: a buffer whose first byte is none of `0x1f`, `0x0a`, `0x12` routes
to the text-format parser without raising (the parser is total); the result
always has an empty `fileMetrics` map and empty `topFunctions`, and when no
line matches the `Total:` or `Duration:` header patterns the defaults 1000
samples and 10e9 ns apply. -/
theorem parseBuffer_text_fallback (buf : List Nat)
    (h1 : buf.get? 0 ≠ some 0x1f) (h2 : buf.get? 0 ≠ some 0x0a)
    (h3 : buf.get? 0 ≠ some 0x12) :
    PprofParser.parseBuffer buf =
      .text (PprofParser.parseTextFormat (Js.utf8Decode buf)) ∧
    (PprofParser.parseTextFormat (Js.utf8Decode buf)).fileMetrics = [] ∧
    (PprofParser.parseTextFormat (Js.utf8Decode buf)).topFunctions = [] ∧
    ((∀ line ∈ Js.jsSplit (Char.ofNat 10) (Js.utf8Decode buf),
        PprofParser.totalMatch line.data = none) →
      (PprofParser.parseTextFormat (Js.utf8Decode buf)).totalSamples = 1000) ∧
    ((∀ line ∈ Js.jsSplit (Char.ofNat 10) (Js.utf8Decode buf),
        PprofParser.durationMatch line.data = none) →
      (PprofParser.parseTextFormat (Js.utf8Decode buf)).durationNs = 10000000000) := by
  refine ⟨?_, rfl, rfl, ?_, ?_⟩
  · rw [PprofParser.parseBuffer, if_neg (fun hc => h1 hc.1),
      if_neg (fun hc => hc.elim h2 h3)]
  · intro hno
    simp only [PprofParser.parseTextFormat]
    rw [textHeaderLoop_fst _ _ hno]
    simp
  · intro hno
    simp only [PprofParser.parseTextFormat]
    rw [textHeaderLoop_snd _ _ hno]
    simp

/-- C10 witness: the ASCII buffer `hello` (first byte `0x68`). -/
theorem parseBuffer_text_fallback_witness :
    PprofParser.parseBuffer [104, 101, 108, 108, 111] =
      .text (PprofParser.parseTextFormat (Js.utf8Decode [104, 101, 108, 108, 111])) ∧
    (PprofParser.parseTextFormat (Js.utf8Decode [104, 101, 108, 108, 111])).totalSamples = 1000 ∧
    (PprofParser.parseTextFormat (Js.utf8Decode [104, 101, 108, 108, 111])).durationNs =
      10000000000 := by
  obtain ⟨ha, _, _, hd, he⟩ := parseBuffer_text_fallback [104, 101, 108, 108, 111]
    (by decide) (by decide) (by decide)
  exact ⟨ha, hd (by decide), he (by decide)⟩

end TextFormatTheorems

section PathMapperTheorems

theorem hintStep_eq_max (lower hint : String) (m : Nat) :
    (if Js.strHasSub lower ("/" ++ hint ++ "/") then
      if m < 100 then 100 else m
     else if Js.strHasSub lower hint then
      if m < 50 then 50 else m
     else m) =
    max m (if Js.strHasSub lower ("/" ++ hint ++ "/") then 100
           else if Js.strHasSub lower hint then 50 else 0) := by
  split_ifs <;> omega

theorem hintFold_eq (lower : String) (hints : List String) (s : Nat) :
    hints.foldl (fun maxHintScore hint =>
      if Js.strHasSub lower ("/" ++ hint ++ "/") then
        if maxHintScore < 100 then 100 else maxHintScore
      else if Js.strHasSub lower hint then
        if maxHintScore < 50 then 50 else maxHintScore
      else maxHintScore) s =
    max s (if hints.any (fun h => Js.strHasSub lower ("/" ++ h ++ "/")) then 100
           else if hints.any (fun h => Js.strHasSub lower h) then 50 else 0) := by
  induction hints generalizing s with
  | nil => simp
  | cons h t ih =>
    rw [List.foldl_cons, hintStep_eq_max, ih]
    simp only [List.any_cons]
    by_cases h1 : Js.strHasSub lower ("/" ++ h ++ "/") = true <;>
      by_cases h2 : Js.strHasSub lower h = true <;>
      by_cases h3 : t.any (fun x => Js.strHasSub lower ("/" ++ x ++ "/")) = true <;>
      by_cases h4 : t.any (fun x => Js.strHasSub lower x) = true <;>
      simp [h1, h2, h3, h4] <;> omega

theorem hintScore_eq (hints : List String) (lower : String) :
    PathMapper.hintScore hints lower =
      (if hints.any (fun h => Js.strHasSub lower ("/" ++ h ++ "/")) then 100
       else if hints.any (fun h => Js.strHasSub lower h) then 50 else 0) := by
  rw [PathMapper.hintScore, hintFold_eq]
  exact Nat.zero_max _

theorem bonusFold_eq (fileParts : List String) (pp : List String) (s : Nat) :
    pp.foldl (fun s p => if fileParts.contains p then s + 5 else s) s =
      s + 5 * pp.countP (fun p => fileParts.contains p) := by
  induction pp generalizing s with
  | nil => simp
  | cons p t ih =>
    rw [List.foldl_cons, ih, List.countP_cons]
    split_ifs <;> simp_all <;> omega

theorem scoreCandidate_eq (hints pp : List String) (f : String) :
    PathMapper.scoreCandidate hints pp f = PathMapper.claimScore hints pp f := by
  simp only [PathMapper.scoreCandidate, PathMapper.claimScore]
  rw [bonusFold_eq, hintScore_eq]

theorem maxScoreAcc_cons (sc : String → Nat) (s : Nat) (f : String) (t : List String) :
    PathMapper.maxScoreAcc sc s (f :: t) = PathMapper.maxScoreAcc sc (max s (sc f)) t := rfl

theorem le_maxScoreAcc (sc : String → Nat) : ∀ (files : List String) (s : Nat),
    s ≤ PathMapper.maxScoreAcc sc s files := by
  intro files
  induction files with
  | nil => intro s; exact Nat.le_refl s
  | cons f t ih =>
    intro s
    rw [maxScoreAcc_cons]
    exact le_trans (Nat.le_max_left s (sc f)) (ih (max s (sc f)))

theorem maxScoreAcc_ge_mem (sc : String → Nat) :
    ∀ (files : List String) (s : Nat) (x : String), x ∈ files →
      sc x ≤ PathMapper.maxScoreAcc sc s files := by
  intro files
  induction files with
  | nil => intro s x hx; cases hx
  | cons f t ih =>
    intro s x hx
    rw [maxScoreAcc_cons]
    rcases List.mem_cons.mp hx with h | h
    · subst h; exact le_trans (Nat.le_max_right s (sc x)) (le_maxScoreAcc sc t _)
    · exact ih _ x h

theorem maxScoreAcc_of_le (sc : String → Nat) (s : Nat) :
    ∀ (files : List String), (∀ x ∈ files, sc x ≤ s) →
      PathMapper.maxScoreAcc sc s files = s := by
  intro files
  induction files with
  | nil => intro _; rfl
  | cons f t ih =>
    intro h
    rw [maxScoreAcc_cons, Nat.max_eq_left (h f (List.mem_cons_self f t))]
    exact ih (fun x hx => h x (List.mem_cons_of_mem f hx))

theorem maxScoreAcc_attained (sc : String → Nat) :
    ∀ (files : List String) (s : Nat),
      PathMapper.maxScoreAcc sc s files = s ∨
      ∃ x ∈ files, PathMapper.maxScoreAcc sc s files = sc x := by
  intro files
  induction files with
  | nil => intro s; left; rfl
  | cons f t ih =>
    intro s
    rw [maxScoreAcc_cons]
    rcases ih (max s (sc f)) with h | ⟨x, hx, h⟩
    · by_cases hle : sc f ≤ s
      · left; rw [h, Nat.max_eq_left hle]
      · right
        exact ⟨f, List.mem_cons_self f t, by rw [h, Nat.max_eq_right (by omega)]⟩
    · right; exact ⟨x, List.mem_cons_of_mem f hx, h⟩

theorem selStep_noupdate (sc : String → Nat) :
    ∀ (files : List String) (o : Option String) (s : Nat),
    (∀ x ∈ files, sc x ≤ s) →
    files.foldl (fun acc f => if acc.2 < sc f then (some f, sc f) else acc) (o, s) =
      (o, s) := by
  intro files
  induction files with
  | nil => intro o s _; rfl
  | cons f t ih =>
    intro o s h
    rw [List.foldl_cons]
    dsimp only
    rw [if_neg (Nat.not_lt.mpr (h f (List.mem_cons_self f t)))]
    exact ih o s (fun x hx => h x (List.mem_cons_of_mem f hx))

theorem find?_congr_mem {α : Type} (l : List α) (p q : α → Bool)
    (h : ∀ x ∈ l, p x = q x) : l.find? p = l.find? q := by
  induction l with
  | nil => rfl
  | cons a t ih =>
    have ha := h a (List.mem_cons_self a t)
    cases hq : q a with
    | true =>
      rw [List.find?_cons_of_pos t (ha.trans hq), List.find?_cons_of_pos t hq]
    | false =>
      rw [List.find?_cons_of_neg t (by rw [ha, hq]; exact Bool.false_ne_true),
        List.find?_cons_of_neg t (by rw [hq]; exact Bool.false_ne_true)]
      exact ih (fun x hx => h x (List.mem_cons_of_mem a hx))

theorem selLoop_spec (sc : String → Nat) :
    ∀ (files : List String) (o : Option String) (s : Nat),
    (files.foldl (fun acc f => if acc.2 < sc f then (some f, sc f) else acc) (o, s)).1 =
      match files.find? (fun f =>
          decide (s < sc f ∧ PathMapper.maxScoreAcc sc s files ≤ sc f)) with
      | some f => some f
      | none => o := by
  intro files
  induction files with
  | nil => intro o s; rfl
  | cons f t ih =>
    intro o s
    by_cases hf : s < sc f
    · by_cases hall : ∀ x ∈ t, sc x ≤ sc f
      · have hM : PathMapper.maxScoreAcc sc s (f :: t) = sc f := by
          rw [maxScoreAcc_cons, Nat.max_eq_right (Nat.le_of_lt hf)]
          exact maxScoreAcc_of_le sc (sc f) t hall
        rw [List.find?_cons_of_pos t
          (by rw [decide_eq_true_eq]; exact ⟨hf, le_of_eq hM⟩)]
        rw [List.foldl_cons]
        dsimp only
        rw [if_pos hf, selStep_noupdate sc t (some f) (sc f) hall]
      · push_neg at hall
        obtain ⟨y, hy, hylt⟩ := hall
        have hM : PathMapper.maxScoreAcc sc s (f :: t) =
            PathMapper.maxScoreAcc sc (sc f) t := by
          rw [maxScoreAcc_cons, Nat.max_eq_right (Nat.le_of_lt hf)]
        have hMgt : sc f < PathMapper.maxScoreAcc sc (sc f) t :=
          lt_of_lt_of_le hylt (maxScoreAcc_ge_mem sc t (sc f) y hy)
        rw [List.find?_cons_of_neg t (by
          simp only [decide_eq_true_eq, not_and]
          intro _ hle
          rw [hM] at hle
          omega)]
        rw [List.foldl_cons]
        dsimp only
        rw [if_pos hf, ih (some f) (sc f)]
        simp only [hM]
        have hpq : ∀ x, (decide (sc f < sc x ∧
            PathMapper.maxScoreAcc sc (sc f) t ≤ sc x)) =
            (decide (s < sc x ∧ PathMapper.maxScoreAcc sc (sc f) t ≤ sc x)) := by
          intro x
          apply decide_eq_decide.mpr
          constructor
          · rintro ⟨p1, p2⟩; exact ⟨by omega, p2⟩
          · rintro ⟨p1, p2⟩; exact ⟨by omega, p2⟩
        rw [find?_congr_mem t _ _ (fun x _ => hpq x)]
        rcases maxScoreAcc_attained sc t (sc f) with h3 | ⟨x0, hx0, h3⟩
        · omega
        · cases hfd : t.find? (fun x => decide (s < sc x ∧
              PathMapper.maxScoreAcc sc (sc f) t ≤ sc x)) with
          | some z => rfl
          | none =>
            exfalso
            rw [List.find?_eq_none] at hfd
            exact hfd x0 hx0 (by rw [decide_eq_true_eq]; exact ⟨by omega, le_of_eq h3⟩)
    · have hM : PathMapper.maxScoreAcc sc s (f :: t) =
          PathMapper.maxScoreAcc sc s t := by
        rw [maxScoreAcc_cons, Nat.max_eq_left (Nat.not_lt.mp hf)]
      rw [List.find?_cons_of_neg t (by
        simp only [decide_eq_true_eq, not_and]
        intro h1
        exact absurd h1 hf)]
      rw [List.foldl_cons]
      dsimp only
      rw [if_neg hf, ih o s]
      simp only [hM]

/-- C7: the candidate selection of `findFileInWorkspace` is extensionally the
rule the specification words: each candidate is scored 100 for a full-segment
hint occurrence (else 50 for a substring occurrence, taken over all service
hints), plus 10 per consecutive path segment matching from the end, plus 5 per
profile-path segment present in the candidate; the selected file is the first
candidate attaining the maximal score when that score is positive, and no file
is selected otherwise. -/
theorem findBestMatch_eq_claimSelect (profilePath : String)
    (functionName : Option String) (files : List String) :
    PathMapper.findBestMatch profilePath functionName files =
      PathMapper.claimSelect profilePath functionName files := by
  simp only [PathMapper.findBestMatch, PathMapper.claimSelect]
  set hints := PathMapper.serviceHints profilePath functionName with hh
  set pp := PathMapper.splitPath profilePath with hp
  set sc := PathMapper.claimScore hints pp with hsc
  have hstep : (fun (acc : Option String × Nat) f =>
      if acc.2 < PathMapper.scoreCandidate hints pp f
      then (some f, PathMapper.scoreCandidate hints pp f) else acc) =
      (fun (acc : Option String × Nat) f =>
      if acc.2 < sc f then (some f, sc f) else acc) := by
    funext acc f
    rw [hsc, scoreCandidate_eq]
  rw [hstep, selLoop_spec sc files none 0]
  have hbr : files.find? (fun f =>
      decide (0 < sc f ∧ PathMapper.maxScoreAcc sc 0 files ≤ sc f)) =
      files.find? (fun f => decide (0 < sc f ∧ ∀ g ∈ files, sc g ≤ sc f)) := by
    apply find?_congr_mem
    intro f hf
    apply decide_eq_decide.mpr
    constructor
    · rintro ⟨h1, h2⟩
      exact ⟨h1, fun g hg => le_trans (maxScoreAcc_ge_mem sc files 0 g hg) h2⟩
    · rintro ⟨h1, h2⟩
      refine ⟨h1, ?_⟩
      rcases maxScoreAcc_attained sc files 0 with h3 | ⟨x, hx, h3⟩
      · rw [h3]; exact Nat.zero_le _
      · rw [h3]; exact h2 x hx
  rw [hbr]
  cases files.find? (fun f => decide (0 < sc f ∧ ∀ g ∈ files, sc g ≤ sc f)) <;> rfl

end PathMapperTheorems

section C2StringLemmas

theorem str_data_append (a b : String) : (a ++ b).data = a.data ++ b.data := by
  cases a; cases b; rfl

theorem str_ext {a b : String} (h : a.data = b.data) : a = b := by
  cases a
  cases b
  exact congrArg String.mk h

theorem mk_data (l : List Char) : (String.mk l).data = l := rfl

theorem dash_mk_data (l : List Char) : ("-" ++ String.mk l).data = '-' :: l := rfl

theorem digitChar_toNat (d : Nat) (h : d < 10) : (Char.ofNat (48 + d)).toNat = 48 + d := by
  interval_cases d <;> decide

theorem natCharsAux_digits : ∀ (fuel n : Nat), ∀ c ∈ Js.natCharsAux fuel n,
    48 ≤ c.toNat ∧ c.toNat ≤ 57 := by
  intro fuel
  induction fuel with
  | zero => intro n c hc; simp [Js.natCharsAux] at hc
  | succ fuel ih =>
    intro n c hc
    rw [Js.natCharsAux] at hc
    split at hc
    · next hlt =>
      rcases List.mem_singleton.mp hc with rfl
      rw [digitChar_toNat n hlt]
      omega
    · next hge =>
      rcases List.mem_append.mp hc with h1 | h1
      · exact ih _ c h1
      · rcases List.mem_singleton.mp h1 with rfl
        rw [digitChar_toNat (n % 10) (by omega)]
        omega

theorem digitsVal_natCharsAux : ∀ (fuel n : Nat), n < fuel →
    PprofParser.digitsVal (Js.natCharsAux fuel n) = n := by
  intro fuel
  induction fuel with
  | zero => intro n h; omega
  | succ fuel ih =>
    intro n h
    rw [Js.natCharsAux]
    split
    · next hlt =>
      simp [PprofParser.digitsVal, digitChar_toNat n hlt]
    · next hge =>
      have hge10 : 10 ≤ n := by omega
      have ihv := ih (n / 10) (by omega)
      rw [PprofParser.digitsVal] at ihv ⊢
      rw [List.foldl_append, ihv]
      simp only [List.foldl_cons, List.foldl_nil]
      rw [digitChar_toNat (n % 10) (by omega)]
      omega

theorem natChars_inj {a b : Nat} (h : Js.natChars a = Js.natChars b) : a = b := by
  have ha : PprofParser.digitsVal (Js.natChars a) = a :=
    digitsVal_natCharsAux (a + 1) a (by omega)
  have hb : PprofParser.digitsVal (Js.natChars b) = b :=
    digitsVal_natCharsAux (b + 1) b (by omega)
  rw [h, hb] at ha
  exact ha.symm

theorem notin_natCharsAux_of_toNat (fuel n : Nat) (c : Char)
    (h : ¬ (48 ≤ c.toNat ∧ c.toNat ≤ 57)) : c ∉ Js.natCharsAux fuel n :=
  fun hc => h (natCharsAux_digits fuel n c hc)

theorem colon_notin_intToString (i : Int) : (':' : Char) ∉ (Js.intToString i).data := by
  rw [Js.intToString]
  split
  · rw [dash_mk_data]
    intro hc
    rcases List.mem_cons.mp hc with h1 | h1
    · exact absurd h1 (by decide)
    · exact notin_natCharsAux_of_toNat (i.natAbs + 1) i.natAbs _ (by decide) h1
  · exact notin_natCharsAux_of_toNat (i.natAbs + 1) i.natAbs _ (by decide)

theorem intToString_inj {a b : Int} (h : Js.intToString a = Js.intToString b) : a = b := by
  have hd := congrArg String.data h
  rw [Js.intToString, Js.intToString] at hd
  by_cases h1 : a < 0 <;> by_cases h2 : b < 0
  · rw [if_pos h1, if_pos h2, dash_mk_data, dash_mk_data] at hd
    injection hd with _ hd2
    have := natChars_inj hd2
    omega
  · rw [if_pos h1, if_neg h2, dash_mk_data, mk_data] at hd
    have hm : '-' ∈ Js.natChars b.natAbs := by
      rw [← hd]; exact List.mem_cons_self _ _
    exact absurd (natCharsAux_digits _ _ _ hm) (by decide)
  · rw [if_neg h1, if_pos h2, mk_data, dash_mk_data] at hd
    have hm : '-' ∈ Js.natChars a.natAbs := by
      rw [hd]; exact List.mem_cons_self _ _
    exact absurd (natCharsAux_digits _ _ _ hm) (by decide)
  · rw [if_neg h1, if_neg h2, mk_data, mk_data] at hd
    have := natChars_inj hd
    omega

theorem append_colon_inj : ∀ (a1 a2 b1 b2 : List Char), (':' : Char) ∉ b1 →
    (':' : Char) ∉ b2 → a1 ++ ':' :: b1 = a2 ++ ':' :: b2 → a1 = a2 ∧ b1 = b2 := by
  intro a1
  induction a1 with
  | nil =>
    intro a2 b1 b2 hb1 hb2 h
    cases a2 with
    | nil =>
      rw [List.nil_append, List.nil_append] at h
      injection h with _ h2
      exact ⟨rfl, h2⟩
    | cons y a2 =>
      rw [List.nil_append, List.cons_append] at h
      injection h with h1 h2
      exfalso
      apply hb1
      rw [h2]
      exact List.mem_append_right _ (List.mem_cons_self _ _)
  | cons x a1 ih =>
    intro a2 b1 b2 hb1 hb2 h
    cases a2 with
    | nil =>
      rw [List.cons_append, List.nil_append] at h
      injection h with h1 h2
      exfalso
      apply hb2
      rw [← h2]
      exact List.mem_append_right _ (List.mem_cons_self _ _)
    | cons y a2 =>
      rw [List.cons_append, List.cons_append] at h
      injection h with h1 h2
      obtain ⟨ha, hb⟩ := ih a2 b1 b2 hb1 hb2 h2
      exact ⟨by rw [h1, ha], hb⟩

theorem metricsKey_data (f : String) (l : Int) :
    (PprofParser.metricsKey f l).data = f.data ++ ':' :: (Js.intToString l).data := by
  rw [PprofParser.metricsKey, str_data_append, str_data_append, List.append_assoc]
  rfl

theorem metricsKey_inj {f1 f2 : String} {l1 l2 : Int}
    (h : PprofParser.metricsKey f1 l1 = PprofParser.metricsKey f2 l2) :
    f1 = f2 ∧ l1 = l2 := by
  have hd := congrArg String.data h
  rw [metricsKey_data, metricsKey_data] at hd
  obtain ⟨hf, hl⟩ := append_colon_inj _ _ _ _ (colon_notin_intToString l1)
    (colon_notin_intToString l2) hd
  exact ⟨str_ext hf, intToString_inj (str_ext hl)⟩

end C2StringLemmas

section C2MetricsInvariant

theorem sGet_some_mem {α : Type} {m : List (String × α)} {k : String} {v : α}
    (h : PprofParser.sGet m k = some v) : (k, v) ∈ m := by
  induction m with
  | nil => simp [PprofParser.sGet] at h
  | cons kv rest ih =>
    rw [PprofParser.sGet] at h
    split at h
    · next heq =>
      have hkv : (k, v) = kv := by
        injection h with h2
        rw [← heq, ← h2]
      rw [hkv]
      exact List.mem_cons_self _ _
    · exact List.mem_cons_of_mem _ (ih h)

theorem mem_sModify {α : Type} {m : List (String × α)} {k : String}
    {f : α → α} {x : String × α} (hx : x ∈ PprofParser.sModify m k f) :
    x ∈ m ∨ ∃ v, PprofParser.sGet m k = some v ∧ x = (k, f v) := by
  induction m with
  | nil => simp [PprofParser.sModify] at hx
  | cons kv rest ih =>
    rw [PprofParser.sModify] at hx
    split at hx
    · next heq =>
      rcases List.mem_cons.mp hx with h1 | h1
      · right; exact ⟨kv.2, by rw [PprofParser.sGet, if_pos heq], by simp [h1, heq]⟩
      · left; exact List.mem_cons_of_mem _ h1
    · next hne =>
      rcases List.mem_cons.mp hx with h1 | h1
      · left; simp [h1]
      · rcases ih h1 with h2 | ⟨v, hv, hxv⟩
        · left; exact List.mem_cons_of_mem _ h2
        · right; exact ⟨v, by rw [PprofParser.sGet, if_neg hne]; exact hv, hxv⟩

theorem metKey_pipeline (key : String) (init : PprofParser.LocationMetrics)
    (lm : List (String × PprofParser.LocationMetrics))
    (f : PprofParser.LocationMetrics → PprofParser.LocationMetrics)
    (hQi : key = PprofParser.metricsKey init.location.fileName init.location.line)
    (hf : ∀ m, (f m).location = m.location)
    (h : ∀ kv ∈ lm, kv.1 = PprofParser.metricsKey kv.2.location.fileName kv.2.location.line) :
    ∀ kv ∈ PprofParser.sModify
      (if (PprofParser.sGet lm key).isSome then lm else lm ++ [(key, init)]) key f,
      kv.1 = PprofParser.metricsKey kv.2.location.fileName kv.2.location.line := by
  have hlm1 : ∀ kv ∈ (if (PprofParser.sGet lm key).isSome then lm else lm ++ [(key, init)]),
      kv.1 = PprofParser.metricsKey kv.2.location.fileName kv.2.location.line := by
    split
    · exact h
    · intro kv hkv
      rcases List.mem_append.mp hkv with h1 | h1
      · exact h _ h1
      · rcases List.mem_singleton.mp h1 with rfl
        exact hQi
  intro kv hkv
  rcases mem_sModify hkv with h1 | ⟨w, hw, rfl⟩
  · exact hlm1 _ h1
  · have hq := hlm1 _ (sGet_some_mem hw)
    show key = PprofParser.metricsKey (f w).location.fileName (f w).location.line
    rw [hf w]
    exact hq

theorem metricsMap_key_processLineEntry (tbl : List String)
    (fm : List (Int × PprofProtobuf.Func)) (v : Int) (st : PprofParser.SampleLoopState)
    (le : PprofProtobuf.Line)
    (h : ∀ kv ∈ st.locationMetricsMap,
      kv.1 = PprofParser.metricsKey kv.2.location.fileName kv.2.location.line) :
    ∀ kv ∈ (PprofParser.processLineEntry tbl fm v st le).locationMetricsMap,
      kv.1 = PprofParser.metricsKey kv.2.location.fileName kv.2.location.line := by
  simp only [PprofParser.processLineEntry]
  cases hg : PprofParser.assocGet fm le.functionId with
  | none => exact h
  | some func =>
    dsimp only
    exact metKey_pipeline _ _ _ _ rfl (fun m => rfl) h

theorem metricsMap_key_lineLoop (tbl : List String)
    (fm : List (Int × PprofProtobuf.Func)) (v : Int) :
    ∀ (les : List PprofProtobuf.Line) (st : PprofParser.SampleLoopState),
    (∀ kv ∈ st.locationMetricsMap,
      kv.1 = PprofParser.metricsKey kv.2.location.fileName kv.2.location.line) →
    ∀ kv ∈ (les.foldl (PprofParser.processLineEntry tbl fm v) st).locationMetricsMap,
      kv.1 = PprofParser.metricsKey kv.2.location.fileName kv.2.location.line := by
  intro les
  induction les with
  | nil => intro st h; exact h
  | cons le rest ih =>
    intro st h
    rw [List.foldl_cons]
    exact ih _ (metricsMap_key_processLineEntry tbl fm v st le h)

theorem metricsMap_key_processLocationId (tbl : List String)
    (lm : List (Int × PprofProtobuf.Location)) (fm : List (Int × PprofProtobuf.Func))
    (v : Int) (st : PprofParser.SampleLoopState) (a : Int)
    (h : ∀ kv ∈ st.locationMetricsMap,
      kv.1 = PprofParser.metricsKey kv.2.location.fileName kv.2.location.line) :
    ∀ kv ∈ (PprofParser.processLocationId tbl lm fm v st a).locationMetricsMap,
      kv.1 = PprofParser.metricsKey kv.2.location.fileName kv.2.location.line := by
  simp only [PprofParser.processLocationId]
  split
  · exact h
  · cases hg : PprofParser.assocGet lm a with
    | none => exact h
    | some loc =>
      dsimp only
      split
      · exact h
      · exact metricsMap_key_lineLoop tbl fm v loc.line _ h

theorem metricsMap_key_locLoop (tbl : List String)
    (lm : List (Int × PprofProtobuf.Location)) (fm : List (Int × PprofProtobuf.Func))
    (v : Int) :
    ∀ (lids : List Int) (st : PprofParser.SampleLoopState),
    (∀ kv ∈ st.locationMetricsMap,
      kv.1 = PprofParser.metricsKey kv.2.location.fileName kv.2.location.line) →
    ∀ kv ∈ (lids.foldl (PprofParser.processLocationId tbl lm fm v) st).locationMetricsMap,
      kv.1 = PprofParser.metricsKey kv.2.location.fileName kv.2.location.line := by
  intro lids
  induction lids with
  | nil => intro st h; exact h
  | cons a rest ih =>
    intro st h
    rw [List.foldl_cons]
    exact ih _ (metricsMap_key_processLocationId tbl lm fm v st a h)

theorem metricsMap_key_processSample (tbl : List String)
    (lm : List (Int × PprofProtobuf.Location)) (fm : List (Int × PprofProtobuf.Func))
    (st : PprofParser.AggState) (s : PprofProtobuf.Sample)
    (h : ∀ kv ∈ st.locationMetricsMap,
      kv.1 = PprofParser.metricsKey kv.2.location.fileName kv.2.location.line) :
    ∀ kv ∈ (PprofParser.processSample tbl lm fm st s).locationMetricsMap,
      kv.1 = PprofParser.metricsKey kv.2.location.fileName kv.2.location.line := by
  simp only [PprofParser.processSample]
  exact metricsMap_key_locLoop tbl lm fm _ s.locationId ⟨[], st.locationMetricsMap, []⟩ h

theorem metricsMap_key_sampleFold (tbl : List String)
    (lm : List (Int × PprofProtobuf.Location)) (fm : List (Int × PprofProtobuf.Func)) :
    ∀ (samples : List PprofProtobuf.Sample) (st : PprofParser.AggState),
    (∀ kv ∈ st.locationMetricsMap,
      kv.1 = PprofParser.metricsKey kv.2.location.fileName kv.2.location.line) →
    ∀ kv ∈ (samples.foldl (PprofParser.processSample tbl lm fm) st).locationMetricsMap,
      kv.1 = PprofParser.metricsKey kv.2.location.fileName kv.2.location.line := by
  intro samples
  induction samples with
  | nil => intro st h; exact h
  | cons s rest ih =>
    intro st h
    rw [List.foldl_cons]
    exact ih _ (metricsMap_key_processSample tbl lm fm st s h)

theorem metricsMap_key_final (data : PprofProtobuf.PprofProfile) :
    ∀ kv ∈ (PprofParser.parseProtobuf data).locationMetricsMap,
      kv.1 = PprofParser.metricsKey kv.2.location.fileName kv.2.location.line := by
  simp only [PprofParser.parseProtobuf]
  intro kv hkv
  rcases List.mem_map.mp hkv with ⟨kv0, hkv0, rfl⟩
  have hq := metricsMap_key_sampleFold data.stringTable (PprofParser.locationMapOf data)
    (PprofParser.functionMapOf data) data.sample ⟨[], 0, CallTree.emptyBuilder⟩
    (by intro kv hk; simp at hk) _ hkv0
  split
  · exact hq
  · exact hq

end C2MetricsInvariant

section C2TreeInvariant

theorem stack_processLineEntry (tbl : List String) (fm : List (Int × PprofProtobuf.Func))
    (v : Int) (st : PprofParser.SampleLoopState) (le : PprofProtobuf.Line) :
    ∀ fr ∈ (PprofParser.processLineEntry tbl fm v st le).stack,
      fr ∈ st.stack ∨ PprofParser.frameOfLine tbl fm le = some fr := by
  simp only [PprofParser.processLineEntry]
  cases hg : PprofParser.assocGet fm le.functionId with
  | none => exact fun fr h => Or.inl h
  | some func =>
    dsimp only
    intro fr hfr
    rcases List.mem_append.mp hfr with h1 | h1
    · exact Or.inl h1
    · rcases List.mem_singleton.mp h1 with rfl
      right
      rw [PprofParser.frameOfLine, hg]

theorem stack_lineLoop (tbl : List String) (fm : List (Int × PprofProtobuf.Func))
    (v : Int) :
    ∀ (les : List PprofProtobuf.Line) (st : PprofParser.SampleLoopState),
    ∀ fr ∈ (les.foldl (PprofParser.processLineEntry tbl fm v) st).stack,
      fr ∈ st.stack ∨ ∃ le ∈ les, PprofParser.frameOfLine tbl fm le = some fr := by
  intro les
  induction les with
  | nil => intro st fr h; exact Or.inl h
  | cons le rest ih =>
    intro st fr h
    rw [List.foldl_cons] at h
    rcases ih _ fr h with h1 | ⟨le2, hle2, hfr⟩
    · rcases stack_processLineEntry tbl fm v st le fr h1 with h2 | h2
      · exact Or.inl h2
      · exact Or.inr ⟨le, List.mem_cons_self _ _, h2⟩
    · exact Or.inr ⟨le2, List.mem_cons_of_mem _ hle2, hfr⟩

theorem stack_processLocationId (tbl : List String)
    (lm : List (Int × PprofProtobuf.Location)) (fm : List (Int × PprofProtobuf.Func))
    (v : Int) (st : PprofParser.SampleLoopState) (a : Int) :
    ∀ fr ∈ (PprofParser.processLocationId tbl lm fm v st a).stack,
      fr ∈ st.stack ∨ ∃ loc, PprofParser.assocGet lm a = some loc ∧
        ∃ le ∈ loc.line, PprofParser.frameOfLine tbl fm le = some fr := by
  simp only [PprofParser.processLocationId]
  split
  · exact fun fr h => Or.inl h
  · cases hg : PprofParser.assocGet lm a with
    | none => exact fun fr h => Or.inl h
    | some loc =>
      dsimp only
      split
      · exact fun fr h => Or.inl h
      · intro fr h
        rcases stack_lineLoop tbl fm v loc.line _ fr h with h1 | ⟨le, hle, hfr⟩
        · exact Or.inl h1
        · exact Or.inr ⟨loc, rfl, le, hle, hfr⟩

theorem stack_locLoop (tbl : List String)
    (lm : List (Int × PprofProtobuf.Location)) (fm : List (Int × PprofProtobuf.Func))
    (v : Int) :
    ∀ (lids : List Int) (st : PprofParser.SampleLoopState),
    ∀ fr ∈ (lids.foldl (PprofParser.processLocationId tbl lm fm v) st).stack,
      fr ∈ st.stack ∨ ∃ a ∈ lids, ∃ loc, PprofParser.assocGet lm a = some loc ∧
        ∃ le ∈ loc.line, PprofParser.frameOfLine tbl fm le = some fr := by
  intro lids
  induction lids with
  | nil => intro st fr h; exact Or.inl h
  | cons a rest ih =>
    intro st fr h
    rw [List.foldl_cons] at h
    rcases ih _ fr h with h1 | ⟨a2, ha2, hrest⟩
    · rcases stack_processLocationId tbl lm fm v st a fr h1 with h2 | ⟨loc, hloc, hrest⟩
      · exact Or.inl h2
      · exact Or.inr ⟨a, List.mem_cons_self _ _, loc, hloc, hrest⟩
    · exact Or.inr ⟨a2, List.mem_cons_of_mem _ ha2, hrest⟩

theorem stack_sub_allFrames (data : PprofProtobuf.PprofProfile)
    {s : PprofProtobuf.Sample} (hs : s ∈ data.sample)
    (lm0 : List (String × PprofParser.LocationMetrics)) (v : Int) :
    ∀ fr ∈ (s.locationId.foldl
        (PprofParser.processLocationId data.stringTable (PprofParser.locationMapOf data)
          (PprofParser.functionMapOf data) v)
        ⟨[], lm0, []⟩).stack,
      fr ∈ PprofParser.allFrames data := by
  intro fr h
  rcases stack_locLoop _ _ _ _ s.locationId _ fr h with h1 | ⟨a, ha, loc, hloc, le, hle, hfr⟩
  · simp at h1
  · rw [PprofParser.allFrames]
    apply List.mem_flatMap.mpr
    refine ⟨s, hs, ?_⟩
    apply List.mem_flatMap.mpr
    refine ⟨a, ha, ?_⟩
    rw [hloc]
    dsimp only
    have hne : ¬ (loc.line.isEmpty = true) := by
      intro hE
      rw [List.isEmpty_iff] at hE
      rw [hE] at hle
      simp at hle
    rw [if_neg hne]
    exact List.mem_filterMap.mpr ⟨le, hle, hfr⟩

theorem nodeLine_processSample (data : PprofProtobuf.PprofProfile)
    {s : PprofProtobuf.Sample} (hs : s ∈ data.sample) (st : PprofParser.AggState)
    (h : ∀ kn ∈ st.builder.nodeMap, ∃ fr ∈ PprofParser.allFrames data,
      kn.1 = CallTree.frameId fr ∧ kn.2.line = fr.line) :
    ∀ kn ∈ (PprofParser.processSample data.stringTable (PprofParser.locationMapOf data)
        (PprofParser.functionMapOf data) st s).builder.nodeMap,
      ∃ fr ∈ PprofParser.allFrames data, kn.1 = CallTree.frameId fr ∧ kn.2.line = fr.line := by
  simp only [PprofParser.processSample]
  split
  · exact h
  · rw [CallTree.addStack]
    split
    · exact h
    · apply inv_addStackFrames
        (P := fun k n => ∃ fr ∈ PprofParser.allFrames data,
          k = CallTree.frameId fr ∧ n.line = fr.line)
        (fun k n hh => hh)
        (fun k n hh => hh)
        (fun k n c hh => hh)
        (fun k n p hh => hh)
        (fun k n hh => hh)
        _ _ _ ?_ h
      intro fr hfr
      exact ⟨fr, stack_sub_allFrames data hs st.locationMetricsMap _ fr
        (List.mem_reverse.mp hfr), rfl, rfl⟩

theorem nodeLine_sampleFold (data : PprofProtobuf.PprofProfile) :
    ∀ (samples : List PprofProtobuf.Sample), (∀ s ∈ samples, s ∈ data.sample) →
    ∀ (st : PprofParser.AggState),
    (∀ kn ∈ st.builder.nodeMap, ∃ fr ∈ PprofParser.allFrames data,
      kn.1 = CallTree.frameId fr ∧ kn.2.line = fr.line) →
    ∀ kn ∈ (samples.foldl (PprofParser.processSample data.stringTable
        (PprofParser.locationMapOf data) (PprofParser.functionMapOf data)) st).builder.nodeMap,
      ∃ fr ∈ PprofParser.allFrames data, kn.1 = CallTree.frameId fr ∧ kn.2.line = fr.line := by
  intro samples
  induction samples with
  | nil => intro _ st h; exact h
  | cons s rest ih =>
    intro hsub st h
    rw [List.foldl_cons]
    exact ih (fun x hx => hsub x (List.mem_cons_of_mem _ hx)) _
      (nodeLine_processSample data (hsub s (List.mem_cons_self _ _)) st h)

theorem nodeLine_calcPerc {P : String → CallTree.CallTreeNode → Prop}
    (st : CallTree.BuilderState) (td : Int)
    (hP : ∀ k n sp tp, P k n → P k { n with selfPercent := sp, totalPercent := tp })
    (h : ∀ kn ∈ st.nodeMap, P kn.1 kn.2) :
    ∀ kn ∈ (CallTree.calculatePercentages st td).nodeMap, P kn.1 kn.2 := by
  simp only [CallTree.calculatePercentages]
  intro kn hkn
  rcases List.mem_map.mp hkn with ⟨kv, hkv, rfl⟩
  exact hP _ _ _ _ (h _ hkv)

theorem nodeLine_sortChildren {P : String → CallTree.CallTreeNode → Prop}
    (st : CallTree.BuilderState)
    (hP : ∀ k n c, P k n → P k { n with children := c })
    (h : ∀ kn ∈ st.nodeMap, P kn.1 kn.2) :
    ∀ kn ∈ (CallTree.sortChildren st).nodeMap, P kn.1 kn.2 := by
  simp only [CallTree.sortChildren]
  intro kn hkn
  rcases List.mem_map.mp hkn with ⟨kv, hkv, rfl⟩
  exact hP _ _ _ (h _ hkv)

theorem nodeLine_final (data : PprofProtobuf.PprofProfile) :
    ∀ kn ∈ (PprofParser.parseProtobuf data).nodeMap,
      ∃ fr ∈ PprofParser.allFrames data, kn.1 = CallTree.frameId fr ∧ kn.2.line = fr.line := by
  simp only [PprofParser.parseProtobuf]
  apply nodeLine_sortChildren
    (P := fun k n => ∃ fr ∈ PprofParser.allFrames data,
      k = CallTree.frameId fr ∧ n.line = fr.line)
    _ (fun k n c hh => hh)
  apply nodeLine_calcPerc
    (P := fun k n => ∃ fr ∈ PprofParser.allFrames data,
      k = CallTree.frameId fr ∧ n.line = fr.line)
    _ _ (fun k n sp tp hh => hh)
  apply nodeLine_sampleFold data data.sample (fun s hs => hs)
  intro kn hkn
  simp [CallTree.emptyBuilder] at hkn

end C2TreeInvariant

section C2Theorems

/-- C2 counterexample: in `collisionProfile` the second sample resolves to the
frame `(function g, file f:1, declaration line 2)` whose recorded sample line
is 7 — so `Line.line` and `Function.startLine` differ — yet the call-tree node
stored under that frame's identity carries `line = 1`, not the declaration
line 2.  The builder keys nodes by the composite string
`fileName:line:functionName`, and the unrelated frame `(2:g, f, 1)` of the
first sample produces the same key `f:1:2:g` first, so the claim's
unconditional tree-line guarantee fails. -/
theorem node_line_neq_startLine_on_collision :
    (∃ loc ∈ Fixtures.collisionProfile.location, loc.id = 2 ∧
      (⟨2, 7⟩ : PprofProtobuf.Line) ∈ loc.line) ∧
    PprofParser.frameOfLine Fixtures.collisionProfile.stringTable
        (PprofParser.functionMapOf Fixtures.collisionProfile) ⟨2, 7⟩ =
      some ⟨"g", "f:1", 2⟩ ∧
    ((7 : Int) ≠ 2) ∧
    (⟨"g", "f:1", 2⟩ : CallTree.Frame) ∈ PprofParser.allFrames Fixtures.collisionProfile ∧
    CallTree.frameId ⟨"g", "f:1", 2⟩ = CallTree.frameId ⟨"2:g", "f", 1⟩ ∧
    ((CallTree.mapGet (PprofParser.parseProtobuf Fixtures.collisionProfile).nodeMap
        (CallTree.frameId ⟨"g", "f:1", 2⟩)).map CallTree.CallTreeNode.line) = some 1 := by
  refine ⟨by decide, by decide, by decide, by decide, by decide, by decide⟩

/-- C2 amended: provided the composite node-id strings of the profile's
resolvable frames are collision-free, the claim holds: for a line entry
resolving to a function, any call-tree node stored under the frame's identity
carries `line` equal to the function's declaration line `Function.startLine`
(so never the sample line when the two differ), and any line-metrics entry
stored under the frame's file and sample line records exactly the sample line
`Line.line` (so never the declaration line when the two differ). -/
theorem tree_uses_startLine_metrics_use_sample_line
    (data : PprofProtobuf.PprofProfile)
    (H : ∀ f1 ∈ PprofParser.allFrames data, ∀ f2 ∈ PprofParser.allFrames data,
      CallTree.frameId f1 = CallTree.frameId f2 → f1 = f2)
    (le : PprofProtobuf.Line) (func : PprofProtobuf.Func)
    (hfunc : PprofParser.assocGet (PprofParser.functionMapOf data) le.functionId = some func)
    (fr : CallTree.Frame)
    (hfr : PprofParser.frameOfLine data.stringTable (PprofParser.functionMapOf data) le
      = some fr)
    (hmem : fr ∈ PprofParser.allFrames data) :
    (∀ n, CallTree.mapGet (PprofParser.parseProtobuf data).nodeMap (CallTree.frameId fr) =
        some n → n.line = func.startLine ∧ (le.line ≠ func.startLine → n.line ≠ le.line)) ∧
    (∀ m, PprofParser.sGet (PprofParser.parseProtobuf data).locationMetricsMap
        (PprofParser.metricsKey fr.fileName le.line) = some m →
      m.location.line = le.line ∧ m.location.fileName = fr.fileName ∧
        (le.line ≠ func.startLine → m.location.line ≠ func.startLine)) := by
  have hline : fr.line = func.startLine := by
    rw [PprofParser.frameOfLine, hfunc] at hfr
    injection hfr with h2
    rw [← h2]
  constructor
  · intro n hn
    obtain ⟨fr2, hfr2mem, hkey, hline2⟩ := nodeLine_final data _ (mapGet_some_mem hn)
    have hfr2 : fr = fr2 := H fr hmem fr2 hfr2mem hkey
    have hn10 : n.line = func.startLine := by rw [hline2, ← hfr2, hline]
    exact ⟨hn10, fun hne heq => hne (by omega)⟩
  · intro m hm
    have hq : PprofParser.metricsKey fr.fileName le.line =
        PprofParser.metricsKey m.location.fileName m.location.line :=
      metricsMap_key_final data _ (sGet_some_mem hm)
    obtain ⟨hf, hl⟩ := metricsKey_inj hq
    refine ⟨hl.symm, hf.symm, fun hne heq => hne (by omega)⟩

/-- C2 witness: the amended statement applied to `plainProfile` (function `g`
declared at line 10 of file `f`, sampled at line 20): the call-tree node under
the frame's identity reports line 10 and the metrics entry under `f:20`
records line 20. -/
theorem tree_metrics_line_witness :
    ((CallTree.mapGet (PprofParser.parseProtobuf Fixtures.plainProfile).nodeMap
        (CallTree.frameId ⟨"g", "f", 10⟩)).map CallTree.CallTreeNode.line = some 10) ∧
    ((PprofParser.sGet (PprofParser.parseProtobuf Fixtures.plainProfile).locationMetricsMap
        (PprofParser.metricsKey "f" 20)).map (fun m => m.location.line) = some 20) ∧
    ((20 : Int) ≠ 10) := by
  obtain ⟨ht, hm⟩ := tree_uses_startLine_metrics_use_sample_line
    Fixtures.plainProfile (by decide) ⟨1, 20⟩ ⟨1, 1, 0, 2, 10⟩ (by decide)
    ⟨"g", "f", 10⟩ (by decide) (by decide)
  refine ⟨?_, ?_, by decide⟩
  · cases hn : CallTree.mapGet (PprofParser.parseProtobuf Fixtures.plainProfile).nodeMap
        (CallTree.frameId ⟨"g", "f", 10⟩) with
    | none => exact absurd hn (by decide)
    | some n =>
      exact congrArg some (ht n hn).1
  · cases hmm : PprofParser.sGet
        (PprofParser.parseProtobuf Fixtures.plainProfile).locationMetricsMap
        (PprofParser.metricsKey "f" 20) with
    | none => exact absurd hmm (by decide)
    | some m =>
      exact congrArg some (hm m hmm).1

end C2Theorems

section C8Counterexample

/-- C8 counterexample: the claim quantifies over any sequence of `addStack`
calls, but a stack added with the negative value `-1` leaves its outer frame's
node with `totalTime = -1` while its `selfTime` stays `0` (self time only
accrues on the innermost frame), so `totalTime ≥ selfTime` fails without the
nonnegativity restriction. -/
theorem negative_value_total_lt_self :
    ((CallTree.mapGet (CallTree.runOps
        [([⟨"c", "fc", 3⟩, ⟨"a", "fa", 1⟩], -1, 0)]).nodeMap
      "fa:1:a").map (fun n => (n.selfTime, n.totalTime))) = some (0, -1) ∧
    ¬ ((-1 : Int) ≥ 0) := by
  refine ⟨by decide, by decide⟩

end C8Counterexample
